import Mathlib

/-!
Verification of the dependency-aware task execution engine of the
`autonomoustaskplanner` repository.

The engine lives in two variants in the source:
  * `executePlanWithStreaming` / `executeTaskWithRetry` / `getReadyTasks`
    (streaming variant);
  * `executePlan` / `executeTask` / `getReadyTasks` in
    `src/server/executionEngine.ts` (server variant).

The shallow embedding below translates those functions directly.  External
collaborators (the LLM calls and tool execution inside one attempt of a task)
are abstracted as a capability oracle: for each task, given the accumulated
previous results and the attempt number, the oracle reports either a
successful summary string (the value the source stores as the task output)
or a failure carrying the optional error string of the tool result.  Event
messages, which the source builds by string interpolation from fixed
templates, are embedded as an inductive `Msg` with one constructor per
template; `Msg.render` gives the literal source string of each template.
The run result is instrumented with the emitted event list, the list of
capability invocations and the number of loop rounds, so that theorems can
speak about the emitted stream and about which tasks were ever executed.
-/

/-- A task of an execution plan (`PlanTask` in `@shared/types`). -/
structure PlanTask where
  id : String
  description : String
  tools : List String
  dependencies : List String
  optional : Bool
deriving Repr, DecidableEq

/-- An execution plan (`ExecutionPlan` in `@shared/types`). -/
structure ExecutionPlan where
  tasks : List PlanTask
  totalSteps : Nat
  estimatedDuration : String
deriving Repr, DecidableEq

/-- The `type` field of a `StreamUpdate`. -/
inductive UpdateType
  | plan
  | task_start
  | task_progress
  | task_complete
  | task_error
  | execution_complete
  | execution_error
deriving Repr, DecidableEq

/-- Event messages.  One constructor per string template of the source;
`Msg.render` recovers the literal string built by the source. -/
inductive Msg
  | planStart (totalSteps : Nat) (estimatedDuration : String)
  | retryAttempt (attempt maxRetries : Nat)
  | startingTask (description : String)
  | usingTool
  | toolExecuted
  | taskFailedAfterRetries (attempts : Nat) (err : String)
  | taskCompleted (description : String)
  | taskFailed (err : Option String)
  | optionalSkippedBlockedDep
  | blockedDepFailed
  | executionCompleted
deriving Repr, DecidableEq

/-- The literal message string of the source for each template.  The tool
name and reasoning inside the `usingTool` progress message come from an
external LLM response and are elided. -/
def Msg.render : Msg → String
  | .planStart n d =>
      "Starting execution of " ++ toString n ++ " tasks. Estimated duration: " ++ d
  | .retryAttempt a m => "Retry attempt " ++ toString a ++ " of " ++ toString m
  | .startingTask d => "Starting task: " ++ d
  | .usingTool => "Using tool: "
  | .toolExecuted => "Tool executed successfully"
  | .taskFailedAfterRetries n e =>
      "Task failed after " ++ toString n ++ " attempts: " ++ e
  | .taskCompleted d => "Task completed: " ++ d
  | .taskFailed e => "Task failed: " ++ e.getD "undefined"
  | .optionalSkippedBlockedDep => "Optional task skipped due to failed dependency"
  | .blockedDepFailed => "Task skipped due to failed dependency"
  | .executionCompleted => "Execution completed successfully"

/-- A progress event (`StreamUpdate` in `@shared/types`); `data` carries the
task output where the source attaches one. -/
structure StreamUpdate where
  type : UpdateType
  executionId : Nat
  taskId : Option String
  msg : Msg
  data : Option String
deriving Repr, DecidableEq

/-- Outcome of one attempt of a task, as observed by the engine: the external
tool/LLM pipeline of the attempt either produces the summary string stored as
the task's output, or fails with the optional error string of the tool
result. -/
inductive ToolOutcome
  | ok (summary : String)
  | err (msg : Option String)
deriving Repr, DecidableEq

/-- The externally supplied step-execution capability: for a task, the
accumulated previous results and a 1-based attempt number, the outcome of
that attempt. -/
def Capability : Type := PlanTask → List (String × String) → Nat → ToolOutcome

/-- Result of `executeTaskWithRetry` (resp. `executeTask`), instrumented with
the emitted events and the number of capability invocations. -/
structure RetryOut where
  success : Bool
  output : Option String
  error : Option String
  events : List StreamUpdate
  invocations : Nat
deriving Repr, DecidableEq

/-- Events emitted at the head of one attempt of `executeTaskWithRetry`:
a retry notice for attempts after the first, the `task_start` event on the
first attempt. -/
def attemptPre (tid desc : String) (attempt maxRetries : Nat) : List StreamUpdate :=
  (if 1 < attempt then
      [⟨.task_progress, 0, some tid, .retryAttempt attempt maxRetries, none⟩]
    else [])
  ++ (if attempt = 1 then
      [⟨.task_start, 0, some tid, .startingTask desc, none⟩]
    else [])

/-- The attempt loop of `executeTaskWithRetry`.  `fuel` is the number of
attempts still permitted (`maxRetries - attempt + 1` at every call); the
`fuel = 0` base case is the fall-through return after the `for` loop, reached
only when `maxRetries < 1`.  Within an attempt: the retry/start events, the
tool-selection progress event, then the capability invocation; on success the
success-progress event and the summary are returned; on failure the error is
remembered and the next attempt runs, or — on the last attempt — the
`task_error` event is emitted and the failure returned. -/
def retryGo (cap : Nat → ToolOutcome) (tid desc : String) (maxRetries : Nat) :
    Nat → Nat → Option String → RetryOut
  | 0, _, lastError =>
    { success := false, output := none,
      error := some (lastError.getD "Unknown error"),
      events := [], invocations := 0 }
  | fuel + 1, attempt, _ =>
    let pre := attemptPre tid desc attempt maxRetries
      ++ [⟨.task_progress, 0, some tid, .usingTool, none⟩]
    match cap attempt with
    | .ok summary =>
      { success := true, output := some summary, error := none,
        events := pre ++ [⟨.task_progress, 0, some tid, .toolExecuted, none⟩],
        invocations := 1 }
    | .err e =>
      let m := e.getD "Tool execution failed"
      if attempt < maxRetries then
        let rest := retryGo cap tid desc maxRetries fuel (attempt + 1) (some m)
        { success := rest.success, output := rest.output, error := rest.error,
          events := pre ++ rest.events, invocations := rest.invocations + 1 }
      else
        { success := false, output := none, error := some m,
          events := pre
            ++ [⟨.task_error, 0, some tid, .taskFailedAfterRetries maxRetries m, none⟩],
          invocations := 1 }

/-- The function `executeTaskWithRetry` of the streaming engine.  The engine calls it with
the default `maxRetries = 2`. -/
def executeTaskWithRetry (cap : Nat → ToolOutcome) (task : PlanTask)
    (maxRetries : Nat) : RetryOut :=
  retryGo cap task.id task.description maxRetries maxRetries 1 none

/-- Embedding of `getReadyTasks`: ids of the tasks that are in neither resolution set and
all of whose dependencies are in the completed set. -/
def getReadyTasks (tasks : List PlanTask)
    (completedTaskIds failedTaskIds : List String) : List String :=
  (tasks.filter (fun t =>
      !(completedTaskIds.contains t.id) && !(failedTaskIds.contains t.id)
        && t.dependencies.all (fun d => completedTaskIds.contains d))).map PlanTask.id

/-- JS `Set.add`: append the element unless already present. -/
def insertSet (s : List String) (x : String) : List String :=
  if s.contains x then s else s ++ [x]

/-- JS `Map.set`: overwrite the entry with key `k` in place, or append a new
entry. -/
def mapSet {β : Type} (m : List (String × β)) (k : String) (v : β) :
    List (String × β) :=
  if m.any (fun p => p.1 == k) then
    m.map (fun p => if p.1 == k then (k, v) else p)
  else m ++ [(k, v)]

/-- The coordinator's working state for one run, instrumented with the event
list, the capability invocation list (one task id per invocation) and the
round counter `iterations`. -/
structure EngState where
  completed : List String
  failed : List String
  results : List (String × String)
  events : List StreamUpdate
  calls : List String
  iterations : Nat
deriving Repr, DecidableEq

/-- The inner loop over the unresolved-task snapshot when a round has no
ready task: a task with some dependency in the (live) failed set is resolved
into the completed or failed set according to its `optional` flag, with the
corresponding event. -/
def propagateBlocked (execId : Nat) : List PlanTask → EngState → EngState
  | [], st => st
  | t :: rest, st =>
    if t.dependencies.any (fun d => st.failed.contains d) then
      if t.optional then
        propagateBlocked execId rest
          { st with
            completed := insertSet st.completed t.id,
            events := st.events
              ++ [⟨.task_complete, execId, some t.id, .optionalSkippedBlockedDep, none⟩] }
      else
        propagateBlocked execId rest
          { st with
            failed := insertSet st.failed t.id,
            events := st.events
              ++ [⟨.task_error, execId, some t.id, .blockedDepFailed, none⟩] }
    else propagateBlocked execId rest st

/-- Sequential execution of the ready set of one round: each ready id is
looked up, run through `executeTaskWithRetry` with the live results map, and
resolved into the completed or failed set with its completion event.  The
`none` branch of the lookup is unreachable when the ids come from
`getReadyTasks`. -/
def runReady (cap : Capability) (execId : Nat) (tasks : List PlanTask) :
    List String → EngState → EngState
  | [], st => st
  | tid :: rest, st =>
    match tasks.find? (fun t => t.id == tid) with
    | none => runReady cap execId tasks rest st
    | some task =>
      let r := executeTaskWithRetry (cap task st.results) task 2
      let evs := r.events.map (fun e => { e with executionId := execId })
      let st1 : EngState :=
        { st with
          events := st.events ++ evs,
          calls := st.calls ++ List.replicate r.invocations task.id }
      if r.success then
        runReady cap execId tasks rest
          { st1 with
            completed := insertSet st1.completed tid,
            results := mapSet st1.results tid (r.output.getD ""),
            events := st1.events
              ++ [⟨.task_complete, execId, some tid, .taskCompleted task.description,
                    r.output⟩] }
      else
        runReady cap execId tasks rest
          { st1 with
            failed := insertSet st1.failed tid,
            events := st1.events
              ++ [⟨.task_error, execId, some tid, .taskFailed r.error, none⟩] }

/-- The main execution loop of `executePlanWithStreaming`.  `fuel` is
`maxIterations - iterations`, so the guard `iterations < maxIterations` of
the source `while` is the `fuel + 1` pattern. -/
def engineLoop (cap : Capability) (execId : Nat) (tasks : List PlanTask) :
    Nat → EngState → EngState
  | 0, st => st
  | fuel + 1, st =>
    if st.completed.length + st.failed.length < tasks.length then
      let st1 : EngState := { st with iterations := st.iterations + 1 }
      let ready := getReadyTasks tasks st1.completed st1.failed
      if ready.isEmpty then
        let unresolved := tasks.filter (fun t =>
          !(st1.completed.contains t.id) && !(st1.failed.contains t.id))
        if unresolved.isEmpty then st1
        else engineLoop cap execId tasks fuel (propagateBlocked execId unresolved st1)
      else engineLoop cap execId tasks fuel (runReady cap execId tasks ready st1)
    else st

/-- The value returned by `executePlanWithStreaming` — the source returns
`{success, results: {analysis, taskResults}, error?}` — instrumented with the
emitted events, the final resolution sets, the capability invocation list and
the round count. -/
structure RunResult where
  success : Bool
  analysis : Option String
  taskResults : List (String × String)
  error : Option String
  completedIds : List String
  failedIds : List String
  events : List StreamUpdate
  calls : List String
  iterations : Nat
deriving Repr, DecidableEq

/-- Embedding of `executePlanWithStreaming`: emit the plan event, run the main loop with
the round cap `plan.tasks.length * 2`, run the external final analysis over
the accumulated results (`analyze` abstracts the final LLM call), emit
`execution_complete` and return success with the aggregate. -/
def executePlanWithStreaming (cap : Capability)
    (analyze : List (String × String) → String)
    (executionId : Nat) (plan : ExecutionPlan) : RunResult :=
  let st0 : EngState :=
    { completed := [], failed := [], results := [],
      events := [⟨.plan, executionId, none,
        .planStart plan.totalSteps plan.estimatedDuration, none⟩],
      calls := [], iterations := 0 }
  let st := engineLoop cap executionId plan.tasks (plan.tasks.length * 2) st0
  let finalAnalysis := analyze st.results
  { success := true,
    analysis := some finalAnalysis,
    taskResults := st.results,
    error := none,
    completedIds := st.completed,
    failedIds := st.failed,
    events := st.events
      ++ [⟨.execution_complete, executionId, none, .executionCompleted, none⟩],
    calls := st.calls,
    iterations := st.iterations }

/-! ## Server variant (`src/server/executionEngine.ts`)

`executeTask` has no retry: a single attempt.  `executePlan`'s loop has no
iteration bound; `serverLoop` therefore takes a fuel argument and returns
`none` when the fuel is exhausted while the loop guard still holds, so that
`(∀ fuel, serverLoop … fuel st = none)` states that the source loop never
exits. -/

/-- Per-task status record kept in `taskStatuses` by `executePlan`. -/
inductive SrvStatus
  | succeededSt (output : String)
  | failedSt (error : Option String)
deriving Repr, DecidableEq

/-- The server coordinator's working state. -/
structure SrvState where
  completed : List String
  failed : List String
  results : List (String × String)
  statuses : List (String × SrvStatus)
  events : List StreamUpdate
  calls : List String
deriving Repr, DecidableEq

/-- The function `executeTask` of the server engine: a single attempt with the same event
shape as the streaming variant, the failure event using the
`Task failed: …` template. -/
def executeTaskServer (outcome : ToolOutcome) (tid desc : String) : RetryOut :=
  match outcome with
  | .ok summary =>
    { success := true, output := some summary, error := none,
      events := [⟨.task_start, 0, some tid, .startingTask desc, none⟩,
                 ⟨.task_progress, 0, some tid, .usingTool, none⟩,
                 ⟨.task_progress, 0, some tid, .toolExecuted, none⟩],
      invocations := 1 }
  | .err e =>
    let m := e.getD "Tool execution failed"
    { success := false, output := none, error := some m,
      events := [⟨.task_start, 0, some tid, .startingTask desc, none⟩,
                 ⟨.task_progress, 0, some tid, .usingTool, none⟩,
                 ⟨.task_error, 0, some tid, .taskFailed (some m), none⟩],
      invocations := 1 }

/-- The blocked-task propagation of `executePlan`: the non-optional branch is
tested first; neither branch records a `taskStatuses` entry (faithful to the
source, which writes none there). -/
def srvPropagateBlocked (execId : Nat) : List PlanTask → SrvState → SrvState
  | [], st => st
  | t :: rest, st =>
    let blocked := t.dependencies.any (fun d => st.failed.contains d)
    if blocked && !t.optional then
      srvPropagateBlocked execId rest
        { st with
          failed := insertSet st.failed t.id,
          events := st.events
            ++ [⟨.task_error, execId, some t.id, .blockedDepFailed, none⟩] }
    else if blocked && t.optional then
      srvPropagateBlocked execId rest
        { st with
          completed := insertSet st.completed t.id,
          events := st.events
            ++ [⟨.task_complete, execId, some t.id, .optionalSkippedBlockedDep, none⟩] }
    else srvPropagateBlocked execId rest st

/-- Sequential execution of a round's ready set in `executePlan`, recording
`taskStatuses`. -/
def srvRunReady (cap : Capability) (execId : Nat) (tasks : List PlanTask) :
    List String → SrvState → SrvState
  | [], st => st
  | tid :: rest, st =>
    match tasks.find? (fun t => t.id == tid) with
    | none => srvRunReady cap execId tasks rest st
    | some task =>
      let r := executeTaskServer (cap task st.results 1) task.id task.description
      let evs := r.events.map (fun e => { e with executionId := execId })
      let st1 : SrvState :=
        { st with
          events := st.events ++ evs,
          calls := st.calls ++ List.replicate r.invocations task.id }
      if r.success then
        srvRunReady cap execId tasks rest
          { st1 with
            completed := insertSet st1.completed tid,
            results := mapSet st1.results tid (r.output.getD ""),
            statuses := mapSet st1.statuses tid (.succeededSt (r.output.getD "")),
            events := st1.events
              ++ [⟨.task_complete, execId, some tid, .taskCompleted task.description,
                    r.output⟩] }
      else
        srvRunReady cap execId tasks rest
          { st1 with
            failed := insertSet st1.failed tid,
            statuses := mapSet st1.statuses tid (.failedSt r.error),
            events := st1.events
              ++ [⟨.task_error, execId, some tid, .taskFailed r.error, none⟩] }

/-- The unbounded `while` loop of `executePlan`.  `some st` is a genuine loop
exit (guard false, or `break` on an empty unresolved set); `none` means the
fuel ran out with the guard still true, so `(∀ fuel, … = none)` says the
source loop runs forever. -/
def serverLoop (cap : Capability) (execId : Nat) (tasks : List PlanTask) :
    Nat → SrvState → Option SrvState
  | 0, st =>
    if st.completed.length + st.failed.length < tasks.length then none else some st
  | fuel + 1, st =>
    if st.completed.length + st.failed.length < tasks.length then
      let ready := getReadyTasks tasks st.completed st.failed
      if ready.isEmpty then
        let unresolved := tasks.filter (fun t =>
          !(st.completed.contains t.id) && !(st.failed.contains t.id))
        if unresolved.isEmpty then some st
        else serverLoop cap execId tasks fuel (srvPropagateBlocked execId unresolved st)
      else serverLoop cap execId tasks fuel (srvRunReady cap execId tasks ready st)
    else some st

/-- Fresh server state (with the initial `plan` event of `executePlan`). -/
def srvInit (execId : Nat) (plan : ExecutionPlan) : SrvState :=
  { completed := [], failed := [], results := [], statuses := [],
    events := [⟨.plan, execId, none, .planStart plan.totalSteps plan.estimatedDuration,
      none⟩],
    calls := [] }

/-! ## Concrete plans and capabilities used by counterexamples and witnesses -/

/-- Capability that succeeds on every attempt of every task. -/
def capAllOk : Capability := fun _ _ _ => ToolOutcome.ok "out"

/-- Capability for which task `A` always fails and every other task
succeeds. -/
def capFailA : Capability := fun t _ _ =>
  if t.id = "A" then ToolOutcome.err (some "a boom") else ToolOutcome.ok ("out-" ++ t.id)

/-- A final-analysis stub. -/
def analyzeStub : List (String × String) → String := fun _ => "analysis"

/-- Plan with a dangling dependency: `B` depends on the absent id `ghost`. -/
def planDangling : ExecutionPlan :=
  ⟨[⟨"A", "do a", [], [], false⟩, ⟨"B", "do b", [], ["ghost"], false⟩], 2, "3 minutes"⟩

/-- Cyclic plan: `A` and `B` depend on each other. -/
def planCyclic : ExecutionPlan :=
  ⟨[⟨"A", "do a", [], ["B"], false⟩, ⟨"B", "do b", [], ["A"], false⟩], 2, "3 minutes"⟩

/-- Plan where `A` fails, `B` is an optional dependent of `A`, and `C`
depends on `B`. -/
def planSkipChain : ExecutionPlan :=
  ⟨[⟨"A", "do a", [], [], false⟩, ⟨"B", "do b", [], ["A"], true⟩,
    ⟨"C", "do c", [], ["B"], false⟩], 3, "5 minutes"⟩

/-- Plan where `A` fails and `B` is an optional dependent of `A`. -/
def planOptionalDep : ExecutionPlan :=
  ⟨[⟨"A", "do a", [], [], false⟩, ⟨"B", "do b", [], ["A"], true⟩], 2, "3 minutes"⟩

/-- Plan where `A` fails and `B` is a required dependent of `A`. -/
def planRequiredDep : ExecutionPlan :=
  ⟨[⟨"A", "do a", [], [], false⟩, ⟨"B", "do b", [], ["A"], false⟩], 2, "3 minutes"⟩

/-- Plan with a duplicate id `X`: one optional and one required copy, both
depending on the failing task `A`. -/
def planDupId : ExecutionPlan :=
  ⟨[⟨"A", "do a", [], [], false⟩,
    ⟨"X", "x optional", [], ["A"], true⟩,
    ⟨"X", "x required", [], ["A"], false⟩], 3, "5 minutes"⟩

/-! ## Event predicates -/

/-- Recognizer for the `task_start` event of task `tid`. -/
def isStartEvt (tid : String) (e : StreamUpdate) : Bool :=
  e.type == UpdateType.task_start && e.taskId == some tid

/-- Terminal event of task `tid`: its `task_complete` or `task_error`. -/
def isTerminalEvt (tid : String) (e : StreamUpdate) : Bool :=
  (e.type == UpdateType.task_complete || e.type == UpdateType.task_error)
    && e.taskId == some tid

/-- Recognizer for the `task_complete` event of task `tid`. -/
def isCompleteEvt (tid : String) (e : StreamUpdate) : Bool :=
  e.type == UpdateType.task_complete && e.taskId == some tid

/-- The blocked-dependency `task_error` event of task `tid` emitted by the
failure propagation. -/
def isBlockedErrEvt (tid : String) (e : StreamUpdate) : Bool :=
  e.type == UpdateType.task_error && e.taskId == some tid
    && e.msg == Msg.blockedDepFailed

/-- The success `task_complete` event of task `tid` carrying output `out`
(the message template distinguishes it from the optional-skip
`task_complete`). -/
def isSuccessEvt (tid out : String) (e : StreamUpdate) : Bool :=
  match e.msg with
  | Msg.taskCompleted _ => e.taskId == some tid && e.data == some out
  | _ => false

/-- Ordering predicate: `p`-events never strictly precede `q`-events in `l`: every prefix of `l`
containing a `q`-event already contains a `p`-event. -/
def eventOrdered (p q : StreamUpdate → Bool) (l : List StreamUpdate) : Prop :=
  ∀ k, (l.take k).any q = true → (l.take k).any p = true

/-! ## Derived fixtures and invariant predicates -/

/-- The server state after the first round of `executePlan` on
`planDangling`: `A` has succeeded and the dangling task `B` is unresolved
with no failed dependency, so every later round leaves the state
unchanged. -/
def srvStall : SrvState :=
  srvRunReady capAllOk 7 planDangling.tasks
    (getReadyTasks planDangling.tasks [] []) (srvInit 7 planDangling)

/-- Fixture for witnesses: the optional dependent of `planOptionalDep`. -/
def taskB : PlanTask := ⟨"B", "do b", [], ["A"], true⟩

/-- Fixture for witnesses: the required dependent of `planRequiredDep`. -/
def taskBReq : PlanTask := ⟨"B", "do b", [], ["A"], false⟩

/-- Fixture for witnesses: an engine state in which task `A` has failed. -/
def blockedSt : EngState := ⟨[], ["A"], [], [], [], 1⟩

/-- A capability attempt oracle that fails on every attempt. -/
def capErrAll : Nat → ToolOutcome := fun _ => ToolOutcome.err (some "boom")

/-- Invariant: every capability invocation belongs to a resolved task, and a
blocked-dependency error event pins its task into the failed set with no
capability invocation ever recorded for it. -/
def BlockedSound (st : EngState) : Prop :=
  (∀ x ∈ st.calls, x ∈ st.completed ∨ x ∈ st.failed)
  ∧ ∀ t : String,
      st.events.any (isBlockedErrEvt t) = true → t ∈ st.failed ∧ t ∉ st.calls

/-- Invariant for the dependency-ordering property: the `task_start` of the
observed task never precedes a terminal event of its dependency `A`, and
every member of the completed set has a `task_complete` event. -/
def StartAfterDep (a bid : String) (st : EngState) : Prop :=
  eventOrdered (isTerminalEvt a) (isStartEvt bid) st.events
  ∧ ∀ id ∈ st.completed, st.events.any (isCompleteEvt id) = true

/-- Invariant: every success event is recorded in the results map and its
task is in the completed set. -/
def SuccessRecorded (st : EngState) : Prop :=
  ∀ tid out, st.events.any (isSuccessEvt tid out) = true →
    (tid, out) ∈ st.results ∧ tid ∈ st.completed

/-- Invariant: every entry of the results map stems from a success event. -/
def ResultsFromSuccess (st : EngState) : Prop :=
  ∀ p ∈ st.results, st.events.any (isSuccessEvt p.1 p.2) = true

/-! ## Basic lemmas about the set/map embeddings -/

lemma contains_iff (s : List String) (x : String) : s.contains x = true ↔ x ∈ s := by
  simp [List.contains, List.elem_iff]

lemma contains_eq_false_iff (s : List String) (x : String) :
    s.contains x = false ↔ x ∉ s := by
  rw [← Bool.not_eq_true, not_iff_not]
  exact contains_iff s x

lemma insertSet_mem {s : List String} {x y : String} :
    y ∈ insertSet s x ↔ y ∈ s ∨ y = x := by
  by_cases h : s.contains x = true
  · have hx : x ∈ s := (contains_iff s x).mp h
    simp only [insertSet, h, if_true]
    constructor
    · exact Or.inl
    · intro hy
      rcases hy with hy | hy
      · exact hy
      · exact hy ▸ hx
  · have hx : x ∉ s := (contains_eq_false_iff s x).mp (Bool.eq_false_iff.mpr h)
    simp [insertSet, hx, List.mem_append]

lemma insertSet_self (s : List String) (x : String) : x ∈ insertSet s x :=
  insertSet_mem.mpr (Or.inr rfl)

lemma insertSet_mono {s : List String} {x y : String} (h : y ∈ s) :
    y ∈ insertSet s x :=
  insertSet_mem.mpr (Or.inl h)

lemma mapSet_mem_self {β : Type} (m : List (String × β)) (k : String) (v : β) :
    (k, v) ∈ mapSet m k v := by
  unfold mapSet
  by_cases h : m.any (fun p => p.1 == k) = true
  · simp only [h, if_true, List.mem_map]
    rcases List.any_eq_true.mp h with ⟨p, hp, hk⟩
    exact ⟨p, hp, by simp [beq_iff_eq.mp hk]⟩
  · have h' : m.any (fun p => p.1 == k) = false := Bool.eq_false_iff.mpr h
    simp [h']

lemma mem_mapSet_of_ne {β : Type} {m : List (String × β)} {k : String} {v : β}
    {p : String × β} (hp : p ∈ m) (hne : p.1 ≠ k) : p ∈ mapSet m k v := by
  unfold mapSet
  by_cases h : m.any (fun q => q.1 == k) = true
  · simp only [h, if_true, List.mem_map]
    exact ⟨p, hp, by simp [hne]⟩
  · have h' : m.any (fun q => q.1 == k) = false := Bool.eq_false_iff.mpr h
    simp [h', List.mem_append, hp]

lemma mem_mapSet_elim {β : Type} {m : List (String × β)} {k : String} {v : β}
    {p : String × β} (hp : p ∈ mapSet m k v) :
    p = (k, v) ∨ (p ∈ m ∧ p.1 ≠ k) := by
  unfold mapSet at hp
  by_cases h : m.any (fun q => q.1 == k) = true
  · simp only [h, if_true, List.mem_map] at hp
    rcases hp with ⟨q, hq, rfl⟩
    by_cases hk : q.1 = k
    · simp [hk]
    · right
      have hk2 : (q.1 == k) = false := beq_eq_false_iff_ne.mpr hk
      simp only [hk2, Bool.false_eq_true, if_false]
      exact ⟨hq, hk⟩
  · simp only [h, Bool.false_eq_true, if_false, List.mem_append, List.mem_singleton] at hp
    rcases hp with hp | rfl
    · right
      refine ⟨hp, fun hk => ?_⟩
      have : m.any (fun q => q.1 == k) = true :=
        List.any_eq_true.mpr ⟨p, hp, beq_iff_eq.mpr hk⟩
      exact h this
    · exact Or.inl rfl

/-! ## Characterization of `getReadyTasks` -/

lemma mem_getReadyTasks {tasks : List PlanTask} {c f : List String} {tid : String} :
    tid ∈ getReadyTasks tasks c f ↔
      ∃ t ∈ tasks, t.id = tid ∧ c.contains t.id = false ∧ f.contains t.id = false ∧
        t.dependencies.all (fun d => c.contains d) = true := by
  unfold getReadyTasks
  simp only [List.mem_map, List.mem_filter, Bool.and_eq_true, Bool.not_eq_true']
  constructor
  · rintro ⟨t, ⟨ht, ⟨hc, hf⟩, hd⟩, rfl⟩
    exact ⟨t, ht, rfl, hc, hf, hd⟩
  · rintro ⟨t, ht, rfl, hc, hf, hd⟩
    exact ⟨t, ⟨ht, ⟨hc, hf⟩, hd⟩, rfl⟩

lemma getReadyTasks_not_completed {tasks : List PlanTask} {c f : List String}
    {tid : String} (h : tid ∈ getReadyTasks tasks c f) : tid ∉ c := by
  rcases mem_getReadyTasks.mp h with ⟨t, -, rfl, hc, -, -⟩
  exact (contains_eq_false_iff c t.id).mp hc

lemma getReadyTasks_not_failed {tasks : List PlanTask} {c f : List String}
    {tid : String} (h : tid ∈ getReadyTasks tasks c f) : tid ∉ f := by
  rcases mem_getReadyTasks.mp h with ⟨t, -, rfl, -, hf, -⟩
  exact (contains_eq_false_iff f t.id).mp hf

lemma getReadyTasks_nodup {tasks : List PlanTask} {c f : List String}
    (h : (tasks.map PlanTask.id).Nodup) : (getReadyTasks tasks c f).Nodup := by
  unfold getReadyTasks
  exact h.sublist (List.Sublist.map PlanTask.id (List.filter_sublist tasks))

lemma nodup_id_unique {tasks : List PlanTask} {t u : PlanTask}
    (h : (tasks.map PlanTask.id).Nodup) (ht : t ∈ tasks) (hu : u ∈ tasks)
    (hid : t.id = u.id) : t = u :=
  List.inj_on_of_nodup_map h ht hu hid

/-- A ready id of a task list with `Nodup` ids pins down the dependencies of
its unique task: if `B` is in the list and its id is ready, all of `B`'s
dependencies are in the completed set. -/
lemma getReadyTasks_deps_completed {tasks : List PlanTask} {c f : List String}
    {B : PlanTask} (hnd : (tasks.map PlanTask.id).Nodup) (hB : B ∈ tasks)
    (h : B.id ∈ getReadyTasks tasks c f) :
    ∀ d ∈ B.dependencies, d ∈ c := by
  rcases mem_getReadyTasks.mp h with ⟨t, ht, hid, -, -, hd⟩
  have : t = B := nodup_id_unique hnd ht hB hid
  subst this
  intro d hdm
  exact (contains_iff c d).mp (List.all_eq_true.mp hd d hdm)

/-! ## Structural lemmas about `propagateBlocked` -/

lemma propagateBlocked_calls (execId : Nat) (l : List PlanTask) (st : EngState) :
    (propagateBlocked execId l st).calls = st.calls := by
  induction l generalizing st with
  | nil => rfl
  | cons t rest ih =>
    simp only [propagateBlocked]
    split
    · split
      · exact ih _
      · exact ih _
    · exact ih _

lemma propagateBlocked_results (execId : Nat) (l : List PlanTask) (st : EngState) :
    (propagateBlocked execId l st).results = st.results := by
  induction l generalizing st with
  | nil => rfl
  | cons t rest ih =>
    simp only [propagateBlocked]
    split
    · split
      · exact ih _
      · exact ih _
    · exact ih _

lemma propagateBlocked_events_mono {execId : Nat} {l : List PlanTask}
    {st : EngState} {e : StreamUpdate} (h : e ∈ st.events) :
    e ∈ (propagateBlocked execId l st).events := by
  induction l generalizing st with
  | nil => exact h
  | cons t rest ih =>
    simp only [propagateBlocked]
    split
    · split
      · exact ih (List.mem_append_left _ h)
      · exact ih (List.mem_append_left _ h)
    · exact ih h

lemma propagateBlocked_completed_mono {execId : Nat} {l : List PlanTask}
    {st : EngState} {x : String} (h : x ∈ st.completed) :
    x ∈ (propagateBlocked execId l st).completed := by
  induction l generalizing st with
  | nil => exact h
  | cons t rest ih =>
    simp only [propagateBlocked]
    split
    · split
      · exact ih (insertSet_mono h)
      · exact ih h
    · exact ih h

lemma propagateBlocked_failed_mono {execId : Nat} {l : List PlanTask}
    {st : EngState} {x : String} (h : x ∈ st.failed) :
    x ∈ (propagateBlocked execId l st).failed := by
  induction l generalizing st with
  | nil => exact h
  | cons t rest ih =>
    simp only [propagateBlocked]
    split
    · split
      · exact ih h
      · exact ih (insertSet_mono h)
    · exact ih h

/-! ## Structural lemmas about `runReady` -/

lemma runReady_events_mono {cap : Capability} {execId : Nat}
    {tasks : List PlanTask} {l : List String} {st : EngState} {e : StreamUpdate}
    (h : e ∈ st.events) : e ∈ (runReady cap execId tasks l st).events := by
  induction l generalizing st with
  | nil => exact h
  | cons tid rest ih =>
    simp only [runReady]
    split
    · exact ih h
    · split
      · exact ih (List.mem_append_left _ (List.mem_append_left _ h))
      · exact ih (List.mem_append_left _ (List.mem_append_left _ h))

lemma runReady_completed_mono {cap : Capability} {execId : Nat}
    {tasks : List PlanTask} {l : List String} {st : EngState} {x : String}
    (h : x ∈ st.completed) : x ∈ (runReady cap execId tasks l st).completed := by
  induction l generalizing st with
  | nil => exact h
  | cons tid rest ih =>
    simp only [runReady]
    split
    · exact ih h
    · split
      · exact ih (insertSet_mono h)
      · exact ih h

lemma runReady_failed_mono {cap : Capability} {execId : Nat}
    {tasks : List PlanTask} {l : List String} {st : EngState} {x : String}
    (h : x ∈ st.failed) : x ∈ (runReady cap execId tasks l st).failed := by
  induction l generalizing st with
  | nil => exact h
  | cons tid rest ih =>
    simp only [runReady]
    split
    · exact ih h
    · split
      · exact ih h
      · exact ih (insertSet_mono h)

lemma runReady_calls_mem {cap : Capability} {execId : Nat}
    {tasks : List PlanTask} {l : List String} {st : EngState} {x : String}
    (h : x ∈ (runReady cap execId tasks l st).calls) :
    x ∈ st.calls ∨ x ∈ l := by
  induction l generalizing st with
  | nil => exact Or.inl h
  | cons tid rest ih =>
    simp only [runReady] at h
    revert h
    split
    · intro h
      rcases ih h with h | h
      · exact Or.inl h
      · exact Or.inr (List.mem_cons_of_mem _ h)
    · rename_i task hfind
      have htid : task.id = tid := by
        have := List.find?_some hfind
        exact beq_iff_eq.mp this
      split
      · intro h
        rcases ih h with h | h
        · simp only [List.mem_append] at h
          rcases h with h | h
          · exact Or.inl h
          · have : x = tid := htid ▸ (List.eq_of_mem_replicate h)
            exact Or.inr (this ▸ List.mem_cons_self _ _)
        · exact Or.inr (List.mem_cons_of_mem _ h)
      · intro h
        rcases ih h with h | h
        · simp only [List.mem_append] at h
          rcases h with h | h
          · exact Or.inl h
          · have : x = tid := htid ▸ (List.eq_of_mem_replicate h)
            exact Or.inr (this ▸ List.mem_cons_self _ _)
        · exact Or.inr (List.mem_cons_of_mem _ h)

/-! ## Generic induction principle for the main loop -/

lemma engineLoop_inv (cap : Capability) (execId : Nat) (tasks : List PlanTask)
    (P : EngState → Prop)
    (hit : ∀ st, P st → P { st with iterations := st.iterations + 1 })
    (hprop : ∀ st, P st →
      P (propagateBlocked execId
          (tasks.filter (fun t =>
            !(st.completed.contains t.id) && !(st.failed.contains t.id))) st))
    (hready : ∀ st, P st →
      P (runReady cap execId tasks (getReadyTasks tasks st.completed st.failed) st)) :
    ∀ fuel st, P st → P (engineLoop cap execId tasks fuel st) := by
  intro fuel
  induction fuel with
  | zero => exact fun st h => h
  | succ n ih =>
    intro st h
    simp only [engineLoop]
    split
    · split
      · split
        · exact hit st h
        · exact ih _ (hprop _ (hit st h))
      · exact ih _ (hready _ (hit st h))
    · exact h

lemma propagateBlocked_iterations (execId : Nat) (l : List PlanTask) (st : EngState) :
    (propagateBlocked execId l st).iterations = st.iterations := by
  induction l generalizing st with
  | nil => rfl
  | cons t rest ih =>
    simp only [propagateBlocked]
    split
    · split
      · exact ih _
      · exact ih _
    · exact ih _

lemma runReady_iterations (cap : Capability) (execId : Nat) (tasks : List PlanTask)
    (l : List String) (st : EngState) :
    (runReady cap execId tasks l st).iterations = st.iterations := by
  induction l generalizing st with
  | nil => rfl
  | cons tid rest ih =>
    simp only [runReady]
    split
    · exact ih _
    · split
      · exact ih _
      · exact ih _

lemma engineLoop_iterations_le (cap : Capability) (execId : Nat)
    (tasks : List PlanTask) :
    ∀ fuel st, (engineLoop cap execId tasks fuel st).iterations ≤ st.iterations + fuel := by
  intro fuel
  induction fuel with
  | zero => exact fun st => Nat.le_add_right _ 0
  | succ n ih =>
    intro st
    simp only [engineLoop]
    split
    · split
      · split
        · exact Nat.add_le_add_left (Nat.le_add_left 1 n) _
        · refine le_trans (ih _) ?_
          rw [propagateBlocked_iterations]
          dsimp only
          omega
      · refine le_trans (ih _) ?_
        rw [runReady_iterations]
        dsimp only
        omega
    · exact Nat.le_add_right _ _

lemma engineLoop_completed_mono {cap : Capability} {execId : Nat}
    {tasks : List PlanTask} {fuel : Nat} {st : EngState} {x : String}
    (h : x ∈ st.completed) : x ∈ (engineLoop cap execId tasks fuel st).completed := by
  refine engineLoop_inv cap execId tasks (fun s => x ∈ s.completed) ?_ ?_ ?_ fuel st h
  · exact fun s hs => hs
  · exact fun s hs => propagateBlocked_completed_mono hs
  · exact fun s hs => runReady_completed_mono hs

lemma engineLoop_failed_mono {cap : Capability} {execId : Nat}
    {tasks : List PlanTask} {fuel : Nat} {st : EngState} {x : String}
    (h : x ∈ st.failed) : x ∈ (engineLoop cap execId tasks fuel st).failed := by
  refine engineLoop_inv cap execId tasks (fun s => x ∈ s.failed) ?_ ?_ ?_ fuel st h
  · exact fun s hs => hs
  · exact fun s hs => propagateBlocked_failed_mono hs
  · exact fun s hs => runReady_failed_mono hs

lemma engineLoop_events_mono {cap : Capability} {execId : Nat}
    {tasks : List PlanTask} {fuel : Nat} {st : EngState} {e : StreamUpdate}
    (h : e ∈ st.events) : e ∈ (engineLoop cap execId tasks fuel st).events := by
  refine engineLoop_inv cap execId tasks (fun s => e ∈ s.events) ?_ ?_ ?_ fuel st h
  · exact fun s hs => hs
  · exact fun s hs => propagateBlocked_events_mono hs
  · exact fun s hs => runReady_events_mono hs

/-! ## Shape of the events emitted inside one task execution -/

/-- Every event emitted by the retry loop of `executeTaskWithRetry` belongs
to the executed task, and is a progress, start, or retry-exhaustion error
event; in particular none of them is a completion event, a success event or
a blocked-dependency error. -/
lemma retryGo_events_shape (cap : Nat → ToolOutcome) (tid desc : String)
    (maxRetries : Nat) :
    ∀ fuel attempt lastError e,
      e ∈ (retryGo cap tid desc maxRetries fuel attempt lastError).events →
      e.taskId = some tid ∧ e.data = none ∧
      (e.type = UpdateType.task_progress
        ∧ (e.msg = Msg.usingTool ∨ e.msg = Msg.toolExecuted
            ∨ ∃ a m, e.msg = Msg.retryAttempt a m)
      ∨ e.type = UpdateType.task_start ∧ e.msg = Msg.startingTask desc
      ∨ e.type = UpdateType.task_error
        ∧ ∃ m, e.msg = Msg.taskFailedAfterRetries maxRetries m) := by
  intro fuel
  induction fuel with
  | zero =>
    intro attempt lastError e he
    simp [retryGo] at he
  | succ n ih =>
    intro attempt lastError e he
    have hpre : ∀ x : StreamUpdate,
        x ∈ attemptPre tid desc attempt maxRetries
          ++ [⟨.task_progress, 0, some tid, .usingTool, none⟩] →
        x.taskId = some tid ∧ x.data = none ∧
        (x.type = UpdateType.task_progress
          ∧ (x.msg = Msg.usingTool ∨ x.msg = Msg.toolExecuted
              ∨ ∃ a m, x.msg = Msg.retryAttempt a m)
        ∨ x.type = UpdateType.task_start ∧ x.msg = Msg.startingTask desc
        ∨ x.type = UpdateType.task_error
          ∧ ∃ m, x.msg = Msg.taskFailedAfterRetries maxRetries m) := by
      intro x hx
      simp only [attemptPre, List.mem_append] at hx
      rcases hx with (hx | hx) | hx
      · split at hx
        · rcases List.mem_singleton.mp hx with rfl
          exact ⟨rfl, rfl, Or.inl ⟨rfl, Or.inr (Or.inr ⟨_, _, rfl⟩)⟩⟩
        · simp at hx
      · split at hx
        · rcases List.mem_singleton.mp hx with rfl
          exact ⟨rfl, rfl, Or.inr (Or.inl ⟨rfl, rfl⟩)⟩
        · simp at hx
      · rcases List.mem_singleton.mp hx with rfl
        exact ⟨rfl, rfl, Or.inl ⟨rfl, Or.inl rfl⟩⟩
    simp only [retryGo] at he
    revert he
    split
    · intro he
      simp only [List.mem_append] at he
      rcases he with he | he
      · exact hpre e (List.mem_append.mpr he)
      · rcases List.mem_singleton.mp he with rfl
        exact ⟨rfl, rfl, Or.inl ⟨rfl, Or.inr (Or.inl rfl)⟩⟩
    · split
      · intro he
        simp only [List.mem_append] at he
        rcases he with he | he
        · exact hpre e (List.mem_append.mpr he)
        · exact ih _ _ e he
      · intro he
        simp only [List.mem_append] at he
        rcases he with he | he
        · exact hpre e (List.mem_append.mpr he)
        · rcases List.mem_singleton.mp he with rfl
          exact ⟨rfl, rfl, Or.inr (Or.inr ⟨rfl, _, rfl⟩)⟩

/-- Specialization: no event of the retry loop is a blocked-dependency
error, a completion event or a success event, and any `task_start` among
them belongs to the executed task. -/
lemma executeTaskWithRetry_events_facts (cap : Nat → ToolOutcome)
    (task : PlanTask) (mr : Nat) {e : StreamUpdate}
    (he : e ∈ (executeTaskWithRetry cap task mr).events) :
    e.taskId = some task.id
    ∧ (∀ t, isBlockedErrEvt t e = false)
    ∧ (∀ t, isCompleteEvt t e = false)
    ∧ (∀ t out, isSuccessEvt t out e = false) := by
  rcases retryGo_events_shape cap task.id task.description mr mr 1 none e he
    with ⟨hid, hdata, hshape⟩
  refine ⟨hid, ?_, ?_, ?_⟩
  · intro t
    rcases hshape with ⟨hty, hmsg⟩ | ⟨hty, hmsg⟩ | ⟨hty, m, hmsg⟩
    · simp [isBlockedErrEvt, hty]
    · simp [isBlockedErrEvt, hty]
    · simp [isBlockedErrEvt, hty, hmsg]
  · intro t
    rcases hshape with ⟨hty, hmsg⟩ | ⟨hty, hmsg⟩ | ⟨hty, m, hmsg⟩
    · simp [isCompleteEvt, hty]
    · simp [isCompleteEvt, hty]
    · simp [isCompleteEvt, hty]
  · intro t out
    rcases hshape with ⟨hty, hmsg⟩ | ⟨hty, hmsg⟩ | ⟨hty, m, hmsg⟩
    · rcases hmsg with hm | hm | ⟨a, m, hm⟩ <;> simp [isSuccessEvt, hm]
    · simp [isSuccessEvt, hmsg]
    · simp [isSuccessEvt, hmsg]

/-! ## The server loop never exits on a stalled plan -/

lemma serverLoop_stall_fixed :
    ∀ fuel, serverLoop capAllOk 7 planDangling.tasks fuel srvStall = none := by
  intro fuel
  induction fuel with
  | zero => rfl
  | succ n ih =>
    have hstep : serverLoop capAllOk 7 planDangling.tasks (n + 1) srvStall
        = serverLoop capAllOk 7 planDangling.tasks n srvStall := rfl
    rw [hstep]
    exact ih

lemma serverLoop_dangling_none :
    ∀ fuel, serverLoop capAllOk 7 planDangling.tasks fuel (srvInit 7 planDangling)
      = none := by
  intro fuel
  cases fuel with
  | zero => rfl
  | succ n =>
    have hstep : serverLoop capAllOk 7 planDangling.tasks (n + 1)
          (srvInit 7 planDangling)
        = serverLoop capAllOk 7 planDangling.tasks n srvStall := rfl
    rw [hstep]
    exact serverLoop_stall_fixed n

/-! ## Claim C1 -/

/-- C1 counterexample: the engine performs no validation.  On the plan with
the dangling dependency (`B` depends on the absent id `ghost`), the run is
not rejected: task `A` is started (a `task_start` event is emitted), the
capability is invoked, and the run returns `success := true` with no error,
contradicting "zero `task_start` events and a ValidationError for every plan
with a dangling dependency". -/
theorem c1_counterexample_dangling_executes :
    (executePlanWithStreaming capAllOk analyzeStub 7 planDangling).events.any
        (isStartEvt "A") = true
    ∧ (executePlanWithStreaming capAllOk analyzeStub 7 planDangling).success = true
    ∧ (executePlanWithStreaming capAllOk analyzeStub 7 planDangling).error = none
    ∧ (executePlanWithStreaming capAllOk analyzeStub 7 planDangling).calls = ["A"] := by
  decide

/-- C1 (amended): the engine never validates a plan; structurally defective
plans are executed directly.  For the cyclic plan `A ↔ B` no task ever
becomes ready, so zero `task_start` events are emitted and the capability is
never invoked — but this happens through the round cap running the loop dry,
and the run then returns `success := true` with no error rather than
rejecting with a `ValidationError`. -/
theorem c1_amended_no_validation_cyclic :
    (executePlanWithStreaming capAllOk analyzeStub 7 planCyclic).events.any
        (fun e => e.type == UpdateType.task_start) = false
    ∧ (executePlanWithStreaming capAllOk analyzeStub 7 planCyclic).calls = []
    ∧ (executePlanWithStreaming capAllOk analyzeStub 7 planCyclic).success = true
    ∧ (executePlanWithStreaming capAllOk analyzeStub 7 planCyclic).error = none
    ∧ (executePlanWithStreaming capAllOk analyzeStub 7 planCyclic).iterations
        = planCyclic.tasks.length * 2 := by
  decide

/-! ## Claim C2 -/

/-- C2 counterexample: a stall that exhausts the round cap does not resolve
the run as Aborted.  On the dangling-dependency plan the streaming loop runs
all `2 × 2 = 4` rounds without resolving `B` (one task resolved out of two),
and the run then reports `success := true` with no error — there is no
Aborted outcome or stall reason. -/
theorem c2_counterexample_stall_reports_success :
    (executePlanWithStreaming capAllOk analyzeStub 7 planDangling).iterations
        = planDangling.tasks.length * 2
    ∧ (executePlanWithStreaming capAllOk analyzeStub 7 planDangling).completedIds
        = ["A"]
    ∧ (executePlanWithStreaming capAllOk analyzeStub 7 planDangling).failedIds = []
    ∧ (executePlanWithStreaming capAllOk analyzeStub 7 planDangling).success = true
    ∧ (executePlanWithStreaming capAllOk analyzeStub 7 planDangling).error = none := by
  decide

/-- C2 (amended): the streaming loop indeed runs at most
`2 × plan.tasks.length` rounds, but exhausting the cap never produces an
Aborted result — the run always returns `success := true`.  The server
variant `executePlan` has no round cap at all: on the dangling-dependency
plan its `while` loop never exits (for every fuel bound the loop is still
running), i.e. it loops forever on a stall. -/
theorem c2_amended_round_cap :
    (∀ (cap : Capability) (analyze : List (String × String) → String)
        (execId : Nat) (plan : ExecutionPlan),
      (executePlanWithStreaming cap analyze execId plan).iterations
          ≤ plan.tasks.length * 2
        ∧ (executePlanWithStreaming cap analyze execId plan).success = true)
    ∧ (∀ fuel, serverLoop capAllOk 7 planDangling.tasks fuel (srvInit 7 planDangling)
        = none) := by
  constructor
  · intro cap analyze execId plan
    refine ⟨?_, rfl⟩
    have h := engineLoop_iterations_le cap execId plan.tasks (plan.tasks.length * 2)
      { completed := [], failed := [], results := [],
        events := [⟨.plan, execId, none,
          .planStart plan.totalSteps plan.estimatedDuration, none⟩],
        calls := [], iterations := 0 }
    simpa [executePlanWithStreaming] using h
  · exact serverLoop_dangling_none

/-! ## Claim C3 -/

/-- C3 counterexample: a dependency resolved by the optional-skip path does
count as satisfied.  In `planSkipChain` the optional task `B` is skipped
after its dependency `A` fails (the skip `task_complete` event is emitted),
yet its dependent `C` then becomes ready — `getReadyTasks` returns `C` once
`B` is in the completed set — is started, and its capability is invoked,
contradicting "a dependent of a skipped task never becomes ready". -/
theorem c3_counterexample_skipped_satisfies :
    getReadyTasks planSkipChain.tasks ["B"] ["A"] = ["C"]
    ∧ (executePlanWithStreaming capFailA analyzeStub 7 planSkipChain).events.any
        (fun e => isCompleteEvt "B" e && e.msg == Msg.optionalSkippedBlockedDep) = true
    ∧ (executePlanWithStreaming capFailA analyzeStub 7 planSkipChain).events.any
        (isStartEvt "C") = true
    ∧ (executePlanWithStreaming capFailA analyzeStub 7 planSkipChain).calls.contains
        "C" = true
    ∧ "C" ∈ (executePlanWithStreaming capFailA analyzeStub 7 planSkipChain).completedIds
    := by
  decide

/-- C3 (amended): `getReadyTasks` returns exactly the ids of tasks that are
in neither the completed nor the failed set and all of whose `dependsOn` ids
are in the completed set.  Since the engine resolves skipped optional tasks
into the completed set, a skipped dependency does count as satisfied and a
dependent of a skipped task can become ready. -/
theorem c3_amended_ready_membership (tasks : List PlanTask) (c f : List String)
    (tid : String) :
    tid ∈ getReadyTasks tasks c f ↔
      ∃ t ∈ tasks, t.id = tid ∧ c.contains t.id = false ∧ f.contains t.id = false ∧
        t.dependencies.all (fun d => c.contains d) = true :=
  mem_getReadyTasks

/-! ## Claim C4 -/

/-- C4 counterexample: there is no distinct `Skipped` terminal status.  When
the optional task `B` is blocked by the failed `A`, the streaming engine adds
`B` to the *completed* set (the same set that records succeeded tasks), and
the server engine records no `taskStatuses` entry for `B` at all — neither
variant represents a `Skipped` status distinct from `Succeeded` and
`Failed`. -/
theorem c4_counterexample_no_skipped_status :
    "B" ∈ (executePlanWithStreaming capFailA analyzeStub 7 planOptionalDep).completedIds
    ∧ "B" ∉ (executePlanWithStreaming capFailA analyzeStub 7 planOptionalDep).failedIds
    ∧ (serverLoop capFailA 7 planOptionalDep.tasks 10
        (srvInit 7 planOptionalDep)).any
        (fun st => st.completed.contains "B"
          && !(st.statuses.any (fun p => p.1 == "B"))) = true := by
  decide

/-- C4 (amended): when a round yields no ready tasks and an unresolved task
with `optional = true` has a dependency in the failed set, the engine
resolves it by adding its id to the *completed* set (the code has no distinct
`Skipped` status) and emits a `task_complete` event with the
"Optional task skipped due to failed dependency" message. -/
theorem c4_amended_optional_blocked (execId : Nat) (st : EngState) (t : PlanTask)
    (rest : List PlanTask) (hopt : t.optional = true)
    (hblocked : t.dependencies.any (fun d => st.failed.contains d) = true) :
    t.id ∈ (propagateBlocked execId (t :: rest) st).completed
    ∧ (⟨.task_complete, execId, some t.id, .optionalSkippedBlockedDep, none⟩
        : StreamUpdate) ∈ (propagateBlocked execId (t :: rest) st).events := by
  simp only [propagateBlocked, hblocked, hopt, if_true]
  constructor
  · exact propagateBlocked_completed_mono (insertSet_self _ _)
  · exact propagateBlocked_events_mono
      (List.mem_append_right _ (List.mem_singleton_self _))

/-- Witness for `c4_amended_optional_blocked` at a concrete input. -/
theorem c4_amended_optional_blocked_witness :
    taskB.optional = true
    ∧ (taskB.dependencies.any (fun d => blockedSt.failed.contains d)) = true
    ∧ taskB.id ∈ (propagateBlocked 7 [taskB] blockedSt).completed
    ∧ (⟨.task_complete, 7, some taskB.id, .optionalSkippedBlockedDep, none⟩
        : StreamUpdate) ∈ (propagateBlocked 7 [taskB] blockedSt).events :=
  ⟨rfl, by decide,
    (c4_amended_optional_blocked 7 blockedSt taskB [] rfl (by decide)).1,
    (c4_amended_optional_blocked 7 blockedSt taskB [] rfl (by decide)).2⟩

/-! ## Claim C6 -/

lemma retryGo_all_fail (cap : Nat → ToolOutcome) (f : Nat → Option String)
    (tid desc : String) (maxRetries : Nat) :
    ∀ fuel attempt lastError, attempt + fuel = maxRetries + 1 →
      (∀ a, attempt ≤ a → a ≤ maxRetries → cap a = ToolOutcome.err (f a)) →
      1 ≤ fuel →
      (retryGo cap tid desc maxRetries fuel attempt lastError).invocations = fuel
      ∧ (retryGo cap tid desc maxRetries fuel attempt lastError).success = false
      ∧ (retryGo cap tid desc maxRetries fuel attempt lastError).error
          = some ((f maxRetries).getD "Tool execution failed") := by
  intro fuel
  induction fuel with
  | zero =>
    intro attempt lastError _ _ h1
    exact absurd h1 (by omega)
  | succ n ih =>
    intro attempt lastError heq hf _
    have hle : attempt ≤ maxRetries := by omega
    have hcap : cap attempt = ToolOutcome.err (f attempt) := hf attempt le_rfl hle
    simp only [retryGo, hcap]
    by_cases hlt : attempt < maxRetries
    · have hn : 1 ≤ n := by omega
      rw [if_pos hlt]
      have h := ih (attempt + 1)
        (some ((f attempt).getD "Tool execution failed")) (by omega)
        (fun a ha hb => hf a (by omega) hb) hn
      dsimp only
      exact ⟨by rw [h.1], h.2.1, h.2.2⟩
    · have hmax : attempt = maxRetries := by omega
      have hn : n = 0 := by omega
      rw [if_neg hlt]
      subst hmax
      subst hn
      exact ⟨rfl, rfl, rfl⟩

/-- C6 (confirmed): if the capability fails on every attempt, then
`executeTaskWithRetry` invokes the capability exactly `maxRetries` times
(the engine's default is `maxRetries = 2`), returns a failure result, and the
failure carries the error message of the last failing attempt (with the
source's `"Tool execution failed"` fallback when the tool result has no error
string) — never silently swallowed. -/
theorem c6_retry_exhaustion (cap : Nat → ToolOutcome) (f : Nat → Option String)
    (task : PlanTask) (maxRetries : Nat) (hmr : 1 ≤ maxRetries)
    (hf : ∀ a, 1 ≤ a → a ≤ maxRetries → cap a = ToolOutcome.err (f a)) :
    (executeTaskWithRetry cap task maxRetries).invocations = maxRetries
    ∧ (executeTaskWithRetry cap task maxRetries).success = false
    ∧ (executeTaskWithRetry cap task maxRetries).error
        = some ((f maxRetries).getD "Tool execution failed") := by
  unfold executeTaskWithRetry
  exact retryGo_all_fail cap f task.id task.description maxRetries maxRetries 1 none
    (by omega) (fun a ha hb => hf a ha hb) hmr

/-- Witness for `c6_retry_exhaustion` at the engine's default
`maxRetries = 2` with an always-failing capability. -/
theorem c6_retry_exhaustion_witness :
    (executeTaskWithRetry capErrAll taskBReq 2).invocations = 2
    ∧ (executeTaskWithRetry capErrAll taskBReq 2).success = false
    ∧ (executeTaskWithRetry capErrAll taskBReq 2).error = some "boom" :=
  c6_retry_exhaustion capErrAll (fun _ => some "boom") taskBReq 2 (by decide)
    (fun _ _ _ => rfl)

/-! ## Claim C5 -/

lemma isBlockedErrEvt_of_not_error {t : String} {e : StreamUpdate}
    (h : ¬ e.type = UpdateType.task_error) : isBlockedErrEvt t e = false := by
  have : (e.type == UpdateType.task_error) = false := beq_eq_false_iff_ne.mpr h
  simp [isBlockedErrEvt, this]

lemma isBlockedErrEvt_of_msg_ne {t : String} {e : StreamUpdate}
    (h : ¬ e.msg = Msg.blockedDepFailed) : isBlockedErrEvt t e = false := by
  have : (e.msg == Msg.blockedDepFailed) = false := beq_eq_false_iff_ne.mpr h
  simp [isBlockedErrEvt, this]

lemma isBlockedErrEvt_emitted {t tid : String} {eid : Nat}
    (h : isBlockedErrEvt t
      (⟨.task_error, eid, some tid, .blockedDepFailed, none⟩ : StreamUpdate) = true) :
    t = tid := by
  simp only [isBlockedErrEvt, Bool.and_eq_true, beq_iff_eq] at h
  exact (Option.some.injEq _ _ ▸ h.1.2).symm

lemma isBlockedErrEvt_self (tid : String) (eid : Nat) :
    isBlockedErrEvt tid
      (⟨.task_error, eid, some tid, .blockedDepFailed, none⟩ : StreamUpdate) = true := by
  simp [isBlockedErrEvt]

/-- The events appended by `runReady` for one executed task are never
blocked-dependency error events. -/
lemma runReady_chunk_no_blockedErr (cap : Nat → ToolOutcome) (task : PlanTask)
    (execId : Nat) {e : StreamUpdate} {t : String}
    (he : e ∈ (executeTaskWithRetry cap task 2).events.map
      (fun x => { x with executionId := execId })) :
    isBlockedErrEvt t e = false := by
  rcases List.mem_map.mp he with ⟨x, hx, rfl⟩
  exact (executeTaskWithRetry_events_facts cap task 2 hx).2.1 t

lemma propagateBlocked_blockedSound (execId : Nat) :
    ∀ (l : List PlanTask) (st : EngState), BlockedSound st →
      (∀ t ∈ l, t.id ∉ st.calls) →
      BlockedSound (propagateBlocked execId l st) := by
  intro l
  induction l with
  | nil => exact fun st h _ => h
  | cons t rest ih =>
    intro st h hl
    simp only [propagateBlocked]
    split
    · split
      · -- optional: resolved into the completed set
        refine ih _ ⟨?_, ?_⟩ ?_
        · intro x hx
          rcases h.1 x hx with hc | hf
          · exact Or.inl (insertSet_mono hc)
          · exact Or.inr hf
        · intro t' ht'
          rw [List.any_append] at ht'
          rcases (Bool.or_eq_true _ _).mp ht' with ht' | ht'
          · exact h.2 t' ht'
          · rw [List.any_eq_true] at ht'
            rcases ht' with ⟨e, he, hbe⟩
            rcases List.mem_singleton.mp he with rfl
            rw [isBlockedErrEvt_of_not_error (by simp)] at hbe
            exact absurd hbe (by simp)
        · exact fun t'' ht'' => hl t'' (List.mem_cons_of_mem _ ht'')
      · -- required: resolved into the failed set with the blocked error event
        refine ih _ ⟨?_, ?_⟩ ?_
        · intro x hx
          rcases h.1 x hx with hc | hf
          · exact Or.inl hc
          · exact Or.inr (insertSet_mono hf)
        · intro t' ht'
          rw [List.any_append] at ht'
          rcases (Bool.or_eq_true _ _).mp ht' with ht' | ht'
          · rcases h.2 t' ht' with ⟨hf, hc⟩
            exact ⟨insertSet_mono hf, hc⟩
          · rw [List.any_eq_true] at ht'
            rcases ht' with ⟨e, he, hbe⟩
            rcases List.mem_singleton.mp he with rfl
            rcases isBlockedErrEvt_emitted hbe with rfl
            exact ⟨insertSet_self _ _, hl t (List.mem_cons_self _ _)⟩
        · exact fun t'' ht'' => hl t'' (List.mem_cons_of_mem _ ht'')
    · exact ih _ h (fun t'' ht'' => hl t'' (List.mem_cons_of_mem _ ht''))

lemma runReady_blockedSound (cap : Capability) (execId : Nat)
    (tasks : List PlanTask) :
    ∀ (l : List String) (st : EngState), BlockedSound st →
      (∀ tid ∈ l, st.events.any (isBlockedErrEvt tid) = false) →
      BlockedSound (runReady cap execId tasks l st) := by
  intro l
  induction l with
  | nil => exact fun st h _ => h
  | cons tid rest ih =>
    intro st h hl
    have hhd : st.events.any (isBlockedErrEvt tid) = false :=
      hl tid (List.mem_cons_self _ _)
    simp only [runReady]
    split
    · exact ih st h (fun t ht => hl t (List.mem_cons_of_mem _ ht))
    · rename_i task hfind
      have hp := List.find?_some hfind
      have htid : task.id = tid := beq_iff_eq.mp hp
      have hchunkAny : ∀ t' : String,
          ((executeTaskWithRetry (cap task st.results) task 2).events.map
            (fun e => { e with executionId := execId })).any (isBlockedErrEvt t')
            = false := by
        intro t'
        rw [← Bool.not_eq_true]
        intro hc
        rcases List.any_eq_true.mp hc with ⟨e, he, hbe⟩
        rw [runReady_chunk_no_blockedErr (cap task st.results) task execId he] at hbe
        exact absurd hbe (by simp)
      split
      · -- the executed task succeeded
        refine ih _ ⟨?_, ?_⟩ ?_
        · intro x hx
          rw [List.mem_append] at hx
          rcases hx with hx | hx
          · rcases h.1 x hx with hc | hf
            · exact Or.inl (insertSet_mono hc)
            · exact Or.inr hf
          · have hxid : x = task.id := List.eq_of_mem_replicate hx
            rw [hxid, htid]
            exact Or.inl (insertSet_self _ _)
        · intro t' ht'
          rw [List.any_append, List.any_append] at ht'
          rcases (Bool.or_eq_true _ _).mp ht' with ht' | ht'
          · rcases (Bool.or_eq_true _ _).mp ht' with ht' | ht'
            · rcases h.2 t' ht' with ⟨hf, hc⟩
              refine ⟨hf, ?_⟩
              rw [List.mem_append]
              rintro (hx | hx)
              · exact hc hx
              · have : t' = task.id := List.eq_of_mem_replicate hx
                rw [this, htid] at ht'
                rw [hhd] at ht'
                exact absurd ht' (by simp)
            · rw [hchunkAny t'] at ht'
              exact absurd ht' (by simp)
          · rcases List.any_eq_true.mp ht' with ⟨e, he, hbe⟩
            rcases List.mem_singleton.mp he with rfl
            rw [isBlockedErrEvt_of_not_error (by simp)] at hbe
            exact absurd hbe (by simp)
        · intro t'' ht''
          rw [List.any_append, List.any_append, hl t'' (List.mem_cons_of_mem _ ht''),
            hchunkAny t'']
          have : ([(⟨.task_complete, execId, some tid,
              .taskCompleted task.description,
              (executeTaskWithRetry (cap task st.results) task 2).output⟩
                : StreamUpdate)]).any (isBlockedErrEvt t'') = false := by
            rw [List.any_eq_false]
            intro e he
            rcases List.mem_singleton.mp he with rfl
            simp [isBlockedErrEvt_of_not_error]
          rw [this]
          rfl
      · -- the executed task failed
        refine ih _ ⟨?_, ?_⟩ ?_
        · intro x hx
          rw [List.mem_append] at hx
          rcases hx with hx | hx
          · rcases h.1 x hx with hc | hf
            · exact Or.inl hc
            · exact Or.inr (insertSet_mono hf)
          · have hxid : x = task.id := List.eq_of_mem_replicate hx
            rw [hxid, htid]
            exact Or.inr (insertSet_self _ _)
        · intro t' ht'
          rw [List.any_append, List.any_append] at ht'
          rcases (Bool.or_eq_true _ _).mp ht' with ht' | ht'
          · rcases (Bool.or_eq_true _ _).mp ht' with ht' | ht'
            · rcases h.2 t' ht' with ⟨hf, hc⟩
              refine ⟨insertSet_mono hf, ?_⟩
              rw [List.mem_append]
              rintro (hx | hx)
              · exact hc hx
              · have : t' = task.id := List.eq_of_mem_replicate hx
                rw [this, htid] at ht'
                rw [hhd] at ht'
                exact absurd ht' (by simp)
            · rw [hchunkAny t'] at ht'
              exact absurd ht' (by simp)
          · rcases List.any_eq_true.mp ht' with ⟨e, he, hbe⟩
            rcases List.mem_singleton.mp he with rfl
            rw [isBlockedErrEvt_of_msg_ne (by simp)] at hbe
            exact absurd hbe (by simp)
        · intro t'' ht''
          rw [List.any_append, List.any_append, hl t'' (List.mem_cons_of_mem _ ht''),
            hchunkAny t'']
          have : ([(⟨.task_error, execId, some tid,
              .taskFailed (executeTaskWithRetry (cap task st.results) task 2).error,
              none⟩ : StreamUpdate)]).any (isBlockedErrEvt t'') = false := by
            rw [List.any_eq_false]
            intro e he
            rcases List.mem_singleton.mp he with rfl
            simp [isBlockedErrEvt_of_msg_ne]
          rw [this]
          rfl

lemma engineLoop_blockedSound (cap : Capability) (execId : Nat)
    (tasks : List PlanTask) (fuel : Nat) (st : EngState) (h : BlockedSound st) :
    BlockedSound (engineLoop cap execId tasks fuel st) := by
  refine engineLoop_inv cap execId tasks BlockedSound ?_ ?_ ?_ fuel st h
  · exact fun s hs => hs
  · intro s hs
    refine propagateBlocked_blockedSound execId _ s hs ?_
    intro t' ht' hcall
    rcases List.mem_filter.mp ht' with ⟨-, hcond⟩
    simp only [Bool.and_eq_true, Bool.not_eq_true'] at hcond
    rcases hcond with ⟨hc, hf⟩
    rcases hs.1 t'.id hcall with hx | hx
    · exact absurd hx ((contains_eq_false_iff _ _).mp hc)
    · exact absurd hx ((contains_eq_false_iff _ _).mp hf)
  · intro s hs
    refine runReady_blockedSound cap execId tasks _ s hs ?_
    intro tid htid
    rw [← Bool.not_eq_true]
    intro hc
    exact getReadyTasks_not_failed htid (hs.2 tid hc).1

/-- C5 (confirmed): when a round yields no ready tasks and an unresolved
non-optional task has a dependency in the failed set, the failure propagation
resolves it into the failed set and emits the blocked-dependency `task_error`
event; and in any run, a task carrying that blocked-dependency `task_error`
event ends in the failed set and the step-execution capability is never
invoked for it (`executeTaskWithRetry` is never called on it). -/
theorem c5_blocked_required_no_invocation :
    (∀ (execId : Nat) (st : EngState) (t : PlanTask) (rest : List PlanTask),
      t.optional = false →
      t.dependencies.any (fun d => st.failed.contains d) = true →
      t.id ∈ (propagateBlocked execId (t :: rest) st).failed
      ∧ (⟨.task_error, execId, some t.id, .blockedDepFailed, none⟩ : StreamUpdate)
          ∈ (propagateBlocked execId (t :: rest) st).events)
    ∧ (∀ (cap : Capability) (analyze : List (String × String) → String)
        (execId : Nat) (plan : ExecutionPlan) (t : String),
      (executePlanWithStreaming cap analyze execId plan).events.any
          (isBlockedErrEvt t) = true →
      t ∈ (executePlanWithStreaming cap analyze execId plan).failedIds
      ∧ (executePlanWithStreaming cap analyze execId plan).calls.contains t
          = false) := by
  constructor
  · intro execId st t rest hopt hblocked
    simp only [propagateBlocked, hblocked, if_true, hopt, Bool.false_eq_true, if_false]
    constructor
    · exact propagateBlocked_failed_mono (insertSet_self _ _)
    · exact propagateBlocked_events_mono
        (List.mem_append_right _ (List.mem_singleton_self _))
  · intro cap analyze execId plan t ht
    have hBS : BlockedSound (engineLoop cap execId plan.tasks
        (plan.tasks.length * 2)
        ⟨[], [], [],
          [⟨.plan, execId, none,
            .planStart plan.totalSteps plan.estimatedDuration, none⟩], [], 0⟩) := by
      refine engineLoop_blockedSound cap execId plan.tasks _ _ ⟨?_, ?_⟩
      · intro x hx
        exact absurd hx (List.not_mem_nil x)
      · intro t' ht'
        rcases List.any_eq_true.mp ht' with ⟨e, he, hbe⟩
        rcases List.mem_singleton.mp he with rfl
        rw [isBlockedErrEvt_of_not_error (by simp)] at hbe
        exact absurd hbe (by simp)
    simp only [executePlanWithStreaming] at ht ⊢
    rw [List.any_append] at ht
    rcases (Bool.or_eq_true _ _).mp ht with ht | ht
    · rcases hBS.2 t ht with ⟨hf, hc⟩
      exact ⟨hf, (contains_eq_false_iff _ _).mpr hc⟩
    · rcases List.any_eq_true.mp ht with ⟨e, he, hbe⟩
      rcases List.mem_singleton.mp he with rfl
      rw [isBlockedErrEvt_of_not_error (by simp)] at hbe
      exact absurd hbe (by simp)

/-- Witness for `c5_blocked_required_no_invocation` at concrete inputs: the
required dependent of a failed task in `planRequiredDep`. -/
theorem c5_blocked_required_no_invocation_witness :
    (taskBReq.id ∈ (propagateBlocked 7 [taskBReq] blockedSt).failed
      ∧ (⟨.task_error, 7, some taskBReq.id, .blockedDepFailed, none⟩ : StreamUpdate)
          ∈ (propagateBlocked 7 [taskBReq] blockedSt).events)
    ∧ ("B" ∈ (executePlanWithStreaming capFailA analyzeStub 7
          planRequiredDep).failedIds
      ∧ (executePlanWithStreaming capFailA analyzeStub 7
          planRequiredDep).calls.contains "B" = false) :=
  ⟨c5_blocked_required_no_invocation.1 7 blockedSt taskBReq [] rfl (by decide),
    c5_blocked_required_no_invocation.2 capFailA analyzeStub 7 planRequiredDep "B"
      (by decide)⟩

/-! ## Claim C9 -/

lemma propagateBlocked_disjoint (execId : Nat) :
    ∀ (l : List PlanTask) (st : EngState),
      (∀ x ∈ st.completed, x ∉ st.failed) →
      (l.map PlanTask.id).Nodup →
      (∀ t ∈ l, t.id ∉ st.completed ∧ t.id ∉ st.failed) →
      ∀ x ∈ (propagateBlocked execId l st).completed,
        x ∉ (propagateBlocked execId l st).failed := by
  intro l
  induction l with
  | nil => exact fun st h _ _ => h
  | cons t rest ih =>
    intro st h hnd hl
    have hndr : (rest.map PlanTask.id).Nodup := (List.nodup_cons.mp hnd).2
    have hhd : t.id ∉ rest.map PlanTask.id := (List.nodup_cons.mp hnd).1
    have hts := hl t (List.mem_cons_self _ _)
    simp only [propagateBlocked]
    split
    · split
      · refine ih _ ?_ hndr ?_
        · intro x hx
          rcases insertSet_mem.mp hx with hx | rfl
          · exact h x hx
          · exact hts.2
        · intro t' ht'
          have hne : t'.id ≠ t.id := by
            intro hc
            exact hhd (hc ▸ List.mem_map_of_mem PlanTask.id ht')
          refine ⟨?_, (hl t' (List.mem_cons_of_mem _ ht')).2⟩
          intro hc
          rcases insertSet_mem.mp hc with hc | hc
          · exact (hl t' (List.mem_cons_of_mem _ ht')).1 hc
          · exact hne hc
      · refine ih _ ?_ hndr ?_
        · intro x hx hxf
          rcases insertSet_mem.mp hxf with hxf | rfl
          · exact h x hx hxf
          · exact hts.1 hx
        · intro t' ht'
          have hne : t'.id ≠ t.id := by
            intro hc
            exact hhd (hc ▸ List.mem_map_of_mem PlanTask.id ht')
          refine ⟨(hl t' (List.mem_cons_of_mem _ ht')).1, ?_⟩
          intro hc
          rcases insertSet_mem.mp hc with hc | hc
          · exact (hl t' (List.mem_cons_of_mem _ ht')).2 hc
          · exact hne hc
    · exact ih _ h hndr (fun t' ht' => hl t' (List.mem_cons_of_mem _ ht'))

lemma runReady_disjoint (cap : Capability) (execId : Nat) (tasks : List PlanTask) :
    ∀ (l : List String) (st : EngState),
      (∀ x ∈ st.completed, x ∉ st.failed) →
      l.Nodup →
      (∀ tid ∈ l, tid ∉ st.completed ∧ tid ∉ st.failed) →
      ∀ x ∈ (runReady cap execId tasks l st).completed,
        x ∉ (runReady cap execId tasks l st).failed := by
  intro l
  induction l with
  | nil => exact fun st h _ _ => h
  | cons tid rest ih =>
    intro st h hnd hl
    have hndr : rest.Nodup := (List.nodup_cons.mp hnd).2
    have hhd : tid ∉ rest := (List.nodup_cons.mp hnd).1
    have hts := hl tid (List.mem_cons_self _ _)
    simp only [runReady]
    split
    · exact ih st h hndr (fun t ht => hl t (List.mem_cons_of_mem _ ht))
    · split
      · refine ih _ ?_ hndr ?_
        · intro x hx
          rcases insertSet_mem.mp hx with hx | rfl
          · exact h x hx
          · exact hts.2
        · intro t' ht'
          have hne : t' ≠ tid := fun hc => hhd (hc ▸ ht')
          refine ⟨?_, (hl t' (List.mem_cons_of_mem _ ht')).2⟩
          intro hc
          rcases insertSet_mem.mp hc with hc | hc
          · exact (hl t' (List.mem_cons_of_mem _ ht')).1 hc
          · exact hne hc
      · refine ih _ ?_ hndr ?_
        · intro x hx hxf
          rcases insertSet_mem.mp hxf with hxf | rfl
          · exact h x hx hxf
          · exact hts.1 hx
        · intro t' ht'
          have hne : t' ≠ tid := fun hc => hhd (hc ▸ ht')
          refine ⟨(hl t' (List.mem_cons_of_mem _ ht')).1, ?_⟩
          intro hc
          rcases insertSet_mem.mp hc with hc | hc
          · exact (hl t' (List.mem_cons_of_mem _ ht')).2 hc
          · exact hne hc

lemma engineLoop_disjoint (cap : Capability) (execId : Nat)
    (tasks : List PlanTask) (hnd : (tasks.map PlanTask.id).Nodup)
    (fuel : Nat) (st : EngState) (h : ∀ x ∈ st.completed, x ∉ st.failed) :
    ∀ x ∈ (engineLoop cap execId tasks fuel st).completed,
      x ∉ (engineLoop cap execId tasks fuel st).failed := by
  refine engineLoop_inv cap execId tasks
    (fun s => ∀ x ∈ s.completed, x ∉ s.failed) ?_ ?_ ?_ fuel st h
  · exact fun s hs => hs
  · intro s hs
    refine propagateBlocked_disjoint execId _ s hs ?_ ?_
    · exact hnd.sublist (List.Sublist.map PlanTask.id (List.filter_sublist tasks))
    · intro t ht
      rcases List.mem_filter.mp ht with ⟨-, hcond⟩
      simp only [Bool.and_eq_true, Bool.not_eq_true'] at hcond
      exact ⟨(contains_eq_false_iff _ _).mp hcond.1,
        (contains_eq_false_iff _ _).mp hcond.2⟩
  · intro s hs
    refine runReady_disjoint cap execId tasks _ s hs (getReadyTasks_nodup hnd) ?_
    intro tid htid
    exact ⟨getReadyTasks_not_completed htid, getReadyTasks_not_failed htid⟩

/-- C9 counterexample: with a duplicate task id the completed and failed
sets are not disjoint and a terminal resolution changes.  In `planDupId` the
id `X` names both an optional and a required dependent of the failing `A`;
the blocked-task sweep first resolves `X` into the completed set (skip), then
resolves the second copy into the failed set, so `X` ends in both sets. -/
theorem c9_counterexample_duplicate_id :
    "X" ∈ (executePlanWithStreaming capFailA analyzeStub 7 planDupId).completedIds
    ∧ "X" ∈ (executePlanWithStreaming capFailA analyzeStub 7 planDupId).failedIds := by
  decide

/-- C9 (amended): ids are never removed from the completed or failed set
(both sets only grow across rounds, from any state); and for plans with
pairwise-distinct task ids the two sets are disjoint at every round boundary,
so a terminal resolution never changes.  With duplicate ids (which the engine
never rejects) an id can be added to both sets. -/
theorem c9_amended_terminal_resolution :
    (∀ (cap : Capability) (execId : Nat) (tasks : List PlanTask) (fuel : Nat)
        (st : EngState) (x : String),
      (x ∈ st.completed → x ∈ (engineLoop cap execId tasks fuel st).completed)
      ∧ (x ∈ st.failed → x ∈ (engineLoop cap execId tasks fuel st).failed))
    ∧ (∀ (cap : Capability) (analyze : List (String × String) → String)
        (execId : Nat) (plan : ExecutionPlan),
      (plan.tasks.map PlanTask.id).Nodup →
      ∀ x ∈ (executePlanWithStreaming cap analyze execId plan).completedIds,
        x ∉ (executePlanWithStreaming cap analyze execId plan).failedIds) := by
  constructor
  · intro cap execId tasks fuel st x
    exact ⟨fun h => engineLoop_completed_mono h, fun h => engineLoop_failed_mono h⟩
  · intro cap analyze execId plan hnd
    simp only [executePlanWithStreaming]
    exact engineLoop_disjoint cap execId plan.tasks hnd _ _
      (fun x hx => absurd hx (List.not_mem_nil x))

/-- Witness for `c9_amended_terminal_resolution` on a concrete plan with
distinct ids and a failing task. -/
theorem c9_amended_terminal_resolution_witness :
    (planSkipChain.tasks.map PlanTask.id).Nodup
    ∧ ∀ x ∈ (executePlanWithStreaming capFailA analyzeStub 7
          planSkipChain).completedIds,
        x ∉ (executePlanWithStreaming capFailA analyzeStub 7
          planSkipChain).failedIds :=
  ⟨by decide,
    c9_amended_terminal_resolution.2 capFailA analyzeStub 7 planSkipChain (by decide)⟩

/-! ## Claim C10 -/

lemma retryGo_success_output (cap : Nat → ToolOutcome) (tid desc : String)
    (mr : Nat) :
    ∀ fuel attempt lastError,
      (retryGo cap tid desc mr fuel attempt lastError).success = true →
      ∃ s, (retryGo cap tid desc mr fuel attempt lastError).output = some s := by
  intro fuel
  induction fuel with
  | zero =>
    intro attempt lastError h
    exact absurd h (by simp [retryGo])
  | succ n ih =>
    intro attempt lastError h
    simp only [retryGo] at h ⊢
    revert h
    split
    · exact fun _ => ⟨_, rfl⟩
    · split
      · exact fun h => ih _ _ h
      · intro h
        exact absurd h (by simp)

lemma propagateBlocked_resultsFromSuccess (execId : Nat) (l : List PlanTask)
    (st : EngState) (h : ResultsFromSuccess st) :
    ResultsFromSuccess (propagateBlocked execId l st) := by
  intro p hp
  rw [propagateBlocked_results] at hp
  rcases List.any_eq_true.mp (h p hp) with ⟨e, he, hse⟩
  exact List.any_eq_true.mpr ⟨e, propagateBlocked_events_mono he, hse⟩

lemma isSuccessEvt_completion_self (tid s : String) (eid : Nat) (desc : String) :
    isSuccessEvt tid s
      (⟨.task_complete, eid, some tid, .taskCompleted desc, some s⟩ : StreamUpdate)
      = true := by
  simp [isSuccessEvt]

lemma runReady_resultsFromSuccess (cap : Capability) (execId : Nat)
    (tasks : List PlanTask) :
    ∀ (l : List String) (st : EngState), ResultsFromSuccess st →
      ResultsFromSuccess (runReady cap execId tasks l st) := by
  intro l
  induction l with
  | nil => exact fun st h => h
  | cons tid rest ih =>
    intro st h
    simp only [runReady]
    split
    · exact ih st h
    · rename_i task hfind
      have hp := List.find?_some hfind
      have htid : task.id = tid := beq_iff_eq.mp hp
      split
      · rename_i hsucc
        refine ih _ ?_
        intro p hpmem
        rcases mem_mapSet_elim hpmem with hpeq | ⟨hpold, -⟩
        · rcases retryGo_success_output (cap task st.results) task.id
            task.description 2 2 1 none hsucc with ⟨s, hout⟩
          refine List.any_eq_true.mpr
            ⟨⟨.task_complete, execId, some tid, .taskCompleted task.description,
              (executeTaskWithRetry (cap task st.results) task 2).output⟩,
              List.mem_append_right _ (List.mem_singleton_self _), ?_⟩
          have hget : (executeTaskWithRetry (cap task st.results) task 2).output
              = some s := hout
          rw [hpeq, hget]
          have : (some s).getD "" = s := rfl
          rw [this]
          exact isSuccessEvt_completion_self tid s execId task.description
        · rcases List.any_eq_true.mp (h p hpold) with ⟨e, he, hse⟩
          exact List.any_eq_true.mpr
            ⟨e, List.mem_append_left _ (List.mem_append_left _ he), hse⟩
      · refine ih _ ?_
        intro p hpmem
        rcases List.any_eq_true.mp (h p hpmem) with ⟨e, he, hse⟩
        exact List.any_eq_true.mpr
          ⟨e, List.mem_append_left _ (List.mem_append_left _ he), hse⟩

/-- C10 (confirmed): whenever the main loop and the final analysis complete
without throwing — which the embedding models by a total `analyze`
capability — `executePlanWithStreaming` returns `success := true` with no
error even if some or all tasks failed, and the returned results hold exactly
the final analysis plus the accumulated `taskResults`, every entry of which
stems from a success completion event; failed tasks contribute no entry, so
their error messages are absent from the returned result.  The concrete
conjuncts show a run whose every task failed still returning `success := true`
with an empty results map. -/
theorem c10_success_flag_and_results :
    (∀ (cap : Capability) (analyze : List (String × String) → String)
        (execId : Nat) (plan : ExecutionPlan),
      (executePlanWithStreaming cap analyze execId plan).success = true
      ∧ (executePlanWithStreaming cap analyze execId plan).error = none
      ∧ (executePlanWithStreaming cap analyze execId plan).analysis
          = some (analyze (executePlanWithStreaming cap analyze execId
              plan).taskResults)
      ∧ ∀ p ∈ (executePlanWithStreaming cap analyze execId plan).taskResults,
          (executePlanWithStreaming cap analyze execId plan).events.any
            (isSuccessEvt p.1 p.2) = true)
    ∧ (executePlanWithStreaming capFailA analyzeStub 7 planRequiredDep).success
        = true
    ∧ (executePlanWithStreaming capFailA analyzeStub 7 planRequiredDep).taskResults
        = [] := by
  refine ⟨?_, by decide, by decide⟩
  intro cap analyze execId plan
  refine ⟨rfl, rfl, rfl, ?_⟩
  have hinv : ResultsFromSuccess (engineLoop cap execId plan.tasks
      (plan.tasks.length * 2)
      ⟨[], [], [],
        [⟨.plan, execId, none,
          .planStart plan.totalSteps plan.estimatedDuration, none⟩], [], 0⟩) := by
    refine engineLoop_inv cap execId plan.tasks ResultsFromSuccess ?_ ?_ ?_ _ _ ?_
    · exact fun s hs => hs
    · exact fun s hs => propagateBlocked_resultsFromSuccess execId _ s hs
    · exact fun s hs => runReady_resultsFromSuccess cap execId plan.tasks _ s hs
    · intro p hp
      exact absurd hp (List.not_mem_nil p)
  intro p hp
  simp only [executePlanWithStreaming] at hp ⊢
  rcases List.any_eq_true.mp (hinv p hp) with ⟨e, he, hse⟩
  exact List.any_eq_true.mpr ⟨e, List.mem_append_left _ he, hse⟩

/-! ## Claim C8 -/

lemma isSuccessEvt_completion_elim {t' out' tid : String} {eid : Nat}
    {desc : String} {dat : Option String}
    (h : isSuccessEvt t' out'
      (⟨.task_complete, eid, some tid, .taskCompleted desc, dat⟩ : StreamUpdate)
      = true) :
    t' = tid ∧ dat = some out' := by
  simp only [isSuccessEvt, Bool.and_eq_true, beq_iff_eq] at h
  exact ⟨(Option.some.injEq _ _ ▸ h.1).symm, h.2⟩

lemma propagateBlocked_successRecorded (execId : Nat) :
    ∀ (l : List PlanTask) (st : EngState), SuccessRecorded st →
      SuccessRecorded (propagateBlocked execId l st) := by
  intro l
  induction l with
  | nil => exact fun st h => h
  | cons t rest ih =>
    intro st h
    simp only [propagateBlocked]
    split
    · split
      · refine ih _ ?_
        intro tid out hany
        rw [List.any_append] at hany
        rcases (Bool.or_eq_true _ _).mp hany with hany | hany
        · rcases h tid out hany with ⟨hr, hc⟩
          exact ⟨hr, insertSet_mono hc⟩
        · rcases List.any_eq_true.mp hany with ⟨e, he, hse⟩
          rcases List.mem_singleton.mp he with rfl
          exact absurd hse (by simp [isSuccessEvt])
      · refine ih _ ?_
        intro tid out hany
        rw [List.any_append] at hany
        rcases (Bool.or_eq_true _ _).mp hany with hany | hany
        · exact h tid out hany
        · rcases List.any_eq_true.mp hany with ⟨e, he, hse⟩
          rcases List.mem_singleton.mp he with rfl
          exact absurd hse (by simp [isSuccessEvt])
    · exact ih _ h

lemma runReady_successRecorded (cap : Capability) (execId : Nat)
    (tasks : List PlanTask) :
    ∀ (l : List String) (st : EngState), SuccessRecorded st → l.Nodup →
      (∀ tid ∈ l, tid ∉ st.completed) →
      SuccessRecorded (runReady cap execId tasks l st) := by
  intro l
  induction l with
  | nil => exact fun st h _ _ => h
  | cons tid rest ih =>
    intro st h hnd hl
    have hndr : rest.Nodup := (List.nodup_cons.mp hnd).2
    have hhd : tid ∉ rest := (List.nodup_cons.mp hnd).1
    have htidc : tid ∉ st.completed := hl tid (List.mem_cons_self _ _)
    simp only [runReady]
    split
    · exact ih st h hndr (fun t ht => hl t (List.mem_cons_of_mem _ ht))
    · rename_i task hfind
      have hpfind := List.find?_some hfind
      have htid : task.id = tid := beq_iff_eq.mp hpfind
      split
      · rename_i hsucc
        rcases retryGo_success_output (cap task st.results) task.id
          task.description 2 2 1 none hsucc with ⟨s, hout⟩
        have hout2 : (executeTaskWithRetry (cap task st.results) task 2).output
            = some s := hout
        refine ih _ ?_ hndr ?_
        · intro t' out' hany
          rw [List.any_append, List.any_append] at hany
          rcases (Bool.or_eq_true _ _).mp hany with hany | hany
          · rcases (Bool.or_eq_true _ _).mp hany with hany | hany
            · rcases h t' out' hany with ⟨hr, hc⟩
              have hne : t' ≠ tid := fun hcontra => htidc (hcontra ▸ hc)
              exact ⟨mem_mapSet_of_ne hr hne, insertSet_mono hc⟩
            · rcases List.any_eq_true.mp hany with ⟨e, he, hse⟩
              rcases List.mem_map.mp he with ⟨x, hx, rfl⟩
              have hse' : isSuccessEvt t' out' x = true := hse
              rw [(executeTaskWithRetry_events_facts (cap task st.results)
                task 2 hx).2.2.2 t' out'] at hse'
              exact absurd hse' (by simp)
          · rcases List.any_eq_true.mp hany with ⟨e, he, hse⟩
            rcases List.mem_singleton.mp he with rfl
            rcases isSuccessEvt_completion_elim hse with ⟨rfl, hdat⟩
            have hsout : s = out' := by
              rw [hout2] at hdat
              exact Option.some.injEq _ _ ▸ hdat
            have hget : (executeTaskWithRetry (cap task st.results) task 2).output.getD ""
                = out' := by
              rw [hout2, ← hsout]
              rfl
            exact ⟨hget ▸ mapSet_mem_self st.results t'
              ((executeTaskWithRetry (cap task st.results) task 2).output.getD ""),
              insertSet_self _ _⟩
        · intro t' ht'
          have hne : t' ≠ tid := fun hc => hhd (hc ▸ ht')
          intro hc
          rcases insertSet_mem.mp hc with hc | hc
          · exact hl t' (List.mem_cons_of_mem _ ht') hc
          · exact hne hc
      · refine ih _ ?_ hndr ?_
        · intro t' out' hany
          rw [List.any_append, List.any_append] at hany
          rcases (Bool.or_eq_true _ _).mp hany with hany | hany
          · rcases (Bool.or_eq_true _ _).mp hany with hany | hany
            · exact h t' out' hany
            · rcases List.any_eq_true.mp hany with ⟨e, he, hse⟩
              rcases List.mem_map.mp he with ⟨x, hx, rfl⟩
              have hse' : isSuccessEvt t' out' x = true := hse
              rw [(executeTaskWithRetry_events_facts (cap task st.results)
                task 2 hx).2.2.2 t' out'] at hse'
              exact absurd hse' (by simp)
          · rcases List.any_eq_true.mp hany with ⟨e, he, hse⟩
            rcases List.mem_singleton.mp he with rfl
            exact absurd hse (by simp [isSuccessEvt])
        · exact fun t' ht' => hl t' (List.mem_cons_of_mem _ ht')

/-- C8 (confirmed): the `taskResults` map of the returned result contains the
output of every task that succeeded during the run — identified by its
success `task_complete` event carrying the output — even when other tasks
failed; partial success is preserved regardless of the run-level flag (which
is always `true`).  Stated for plans with distinct task ids. -/
theorem c8_partial_success_preserved (cap : Capability)
    (analyze : List (String × String) → String) (execId : Nat)
    (plan : ExecutionPlan) (tid out : String)
    (hnd : (plan.tasks.map PlanTask.id).Nodup)
    (hev : (executePlanWithStreaming cap analyze execId plan).events.any
      (isSuccessEvt tid out) = true) :
    (tid, out) ∈ (executePlanWithStreaming cap analyze execId plan).taskResults := by
  have hinv : SuccessRecorded (engineLoop cap execId plan.tasks
      (plan.tasks.length * 2)
      ⟨[], [], [],
        [⟨.plan, execId, none,
          .planStart plan.totalSteps plan.estimatedDuration, none⟩], [], 0⟩) := by
    refine engineLoop_inv cap execId plan.tasks SuccessRecorded ?_ ?_ ?_ _ _ ?_
    · exact fun s hs => hs
    · exact fun s hs => propagateBlocked_successRecorded execId _ s hs
    · intro s hs
      refine runReady_successRecorded cap execId plan.tasks _ s hs
        (getReadyTasks_nodup hnd) ?_
      exact fun t ht => getReadyTasks_not_completed ht
    · intro t' out' hany
      rcases List.any_eq_true.mp hany with ⟨e, he, hse⟩
      rcases List.mem_singleton.mp he with rfl
      exact absurd hse (by simp [isSuccessEvt])
  simp only [executePlanWithStreaming] at hev ⊢
  rw [List.any_append] at hev
  rcases (Bool.or_eq_true _ _).mp hev with hev | hev
  · exact (hinv tid out hev).1
  · rcases List.any_eq_true.mp hev with ⟨e, he, hse⟩
    rcases List.mem_singleton.mp he with rfl
    exact absurd hse (by simp [isSuccessEvt])

/-- Witness for `c8_partial_success_preserved`: in `planSkipChain` task `A`
fails, yet the succeeded task `C` keeps its output in the returned
`taskResults`. -/
theorem c8_partial_success_preserved_witness :
    (planSkipChain.tasks.map PlanTask.id).Nodup
    ∧ ("C", "out-C") ∈ (executePlanWithStreaming capFailA analyzeStub 7
        planSkipChain).taskResults :=
  ⟨by decide,
    c8_partial_success_preserved capFailA analyzeStub 7 planSkipChain "C" "out-C"
      (by decide) (by decide)⟩

/-! ## Claim C7 -/

lemma any_take_imp_any {p : StreamUpdate → Bool} {l : List StreamUpdate} {k : Nat}
    (h : (l.take k).any p = true) : l.any p = true := by
  rcases List.any_eq_true.mp h with ⟨e, he, hp⟩
  exact List.any_eq_true.mpr ⟨e, (List.take_sublist k l).mem he, hp⟩

lemma eventOrdered_of_no_q {p q : StreamUpdate → Bool} {l : List StreamUpdate}
    (h : l.any q = false) : eventOrdered p q l := by
  intro k hk
  rw [any_take_imp_any hk] at h
  exact absurd h (by simp)

lemma eventOrdered_append_no_q {p q : StreamUpdate → Bool}
    {l d : List StreamUpdate} (h : eventOrdered p q l) (hd : d.any q = false) :
    eventOrdered p q (l ++ d) := by
  intro k hk
  rw [List.take_append_eq_append_take, List.any_append] at hk ⊢
  rcases (Bool.or_eq_true _ _).mp hk with hk | hk
  · rw [h k hk]
    rfl
  · rw [any_take_imp_any hk] at hd
    exact absurd hd (by simp)

lemma eventOrdered_append_p_mem {p q : StreamUpdate → Bool}
    {l d : List StreamUpdate} (h : eventOrdered p q l) (hp : l.any p = true) :
    eventOrdered p q (l ++ d) := by
  intro k hk
  rw [List.take_append_eq_append_take, List.any_append] at hk ⊢
  rcases (Bool.or_eq_true _ _).mp hk with hk | hk
  · rw [h k hk]
    rfl
  · have hne : k - l.length ≠ 0 := by
      intro hz
      rw [hz] at hk
      exact absurd hk (by simp)
    have hlen : l.length ≤ k := by omega
    rw [List.take_of_length_le hlen]
    rw [hp]
    rfl

lemma isCompleteEvt_terminal {a : String} {e : StreamUpdate}
    (h : isCompleteEvt a e = true) : isTerminalEvt a e = true := by
  simp only [isCompleteEvt, Bool.and_eq_true] at h
  simp only [isTerminalEvt, Bool.and_eq_true, Bool.or_eq_true]
  exact ⟨Or.inl h.1, h.2⟩

lemma isStartEvt_of_not_start {b : String} {e : StreamUpdate}
    (h : ¬ e.type = UpdateType.task_start) : isStartEvt b e = false := by
  have : (e.type == UpdateType.task_start) = false := beq_eq_false_iff_ne.mpr h
  simp [isStartEvt, this]

lemma isStartEvt_of_taskId_ne {b : String} {e : StreamUpdate}
    (h : ¬ e.taskId = some b) : isStartEvt b e = false := by
  have : (e.taskId == some b) = false := beq_eq_false_iff_ne.mpr h
  simp [isStartEvt, this]

lemma propagateBlocked_startAfterDep (a bid : String) (execId : Nat) :
    ∀ (l : List PlanTask) (st : EngState), StartAfterDep a bid st →
      StartAfterDep a bid (propagateBlocked execId l st) := by
  intro l
  induction l with
  | nil => exact fun st h => h
  | cons t rest ih =>
    intro st h
    simp only [propagateBlocked]
    split
    · split
      · refine ih _ ⟨?_, ?_⟩
        · refine eventOrdered_append_no_q h.1 ?_
          rw [List.any_eq_false]
          intro e he
          rcases List.mem_singleton.mp he with rfl
          exact fun hc => Bool.noConfusion hc
        · intro id hid
          rcases insertSet_mem.mp hid with hid | rfl
          · rcases List.any_eq_true.mp (h.2 id hid) with ⟨e, he, hce⟩
            exact List.any_eq_true.mpr ⟨e, List.mem_append_left _ he, hce⟩
          · refine List.any_eq_true.mpr
              ⟨⟨.task_complete, execId, some t.id, .optionalSkippedBlockedDep, none⟩,
                List.mem_append_right _ (List.mem_singleton_self _), ?_⟩
            simp [isCompleteEvt]
      · refine ih _ ⟨?_, ?_⟩
        · refine eventOrdered_append_no_q h.1 ?_
          rw [List.any_eq_false]
          intro e he
          rcases List.mem_singleton.mp he with rfl
          exact fun hc => Bool.noConfusion hc
        · intro id hid
          rcases List.any_eq_true.mp (h.2 id hid) with ⟨e, he, hce⟩
          exact List.any_eq_true.mpr ⟨e, List.mem_append_left _ he, hce⟩
    · exact ih _ h

lemma runReady_startAfterDep (a bid : String) (cap : Capability) (execId : Nat)
    (tasks : List PlanTask) :
    ∀ (l : List String) (st : EngState), StartAfterDep a bid st →
      (∀ tid ∈ l, tid = bid → a ∈ st.completed) →
      StartAfterDep a bid (runReady cap execId tasks l st) := by
  intro l
  induction l with
  | nil => exact fun st h _ => h
  | cons tid rest ih =>
    intro st h hdep
    simp only [runReady]
    split
    · exact ih st h (fun t ht => hdep t (List.mem_cons_of_mem _ ht))
    · rename_i task hfind
      have hpfind := List.find?_some hfind
      have htid : task.id = tid := beq_iff_eq.mp hpfind
      have hevs : ¬ tid = bid →
          ((executeTaskWithRetry (cap task st.results) task 2).events.map
            (fun e => { e with executionId := execId })).any (isStartEvt bid)
            = false := by
        intro hbid
        rw [List.any_eq_false]
        intro e he hc
        rcases List.mem_map.mp he with ⟨x, hx, rfl⟩
        have hc' : isStartEvt bid x = true := hc
        have hxid : x.taskId = some task.id :=
          (executeTaskWithRetry_events_facts (cap task st.results) task 2 hx).1
        rw [isStartEvt_of_taskId_ne (by rw [hxid, htid]; simp [hbid])] at hc'
        exact absurd hc' (by simp)
      have hord : ∀ ev : StreamUpdate, isStartEvt bid ev = false →
          eventOrdered (isTerminalEvt a) (isStartEvt bid)
            ((st.events
              ++ (executeTaskWithRetry (cap task st.results) task 2).events.map
                (fun e => { e with executionId := execId })) ++ [ev]) := by
        intro ev hev
        by_cases hbid : tid = bid
        · have ha : a ∈ st.completed := hdep tid (List.mem_cons_self _ _) hbid
          have hterm : st.events.any (isTerminalEvt a) = true := by
            rcases List.any_eq_true.mp (h.2 a ha) with ⟨e, he, hce⟩
            exact List.any_eq_true.mpr ⟨e, he, isCompleteEvt_terminal hce⟩
          refine eventOrdered_append_p_mem
            (eventOrdered_append_p_mem h.1 hterm) ?_
          rw [List.any_append, hterm]
          rfl
        · refine eventOrdered_append_no_q
            (eventOrdered_append_no_q h.1 (hevs hbid)) ?_
          rw [List.any_eq_false]
          intro e he hc
          rcases List.mem_singleton.mp he with rfl
          rw [hev] at hc
          exact absurd hc (by simp)
      split
      · refine ih _ ⟨?_, ?_⟩ ?_
        · exact hord _ (by exact rfl)
        · intro id hid
          rcases insertSet_mem.mp hid with hid | rfl
          · rcases List.any_eq_true.mp (h.2 id hid) with ⟨e, he, hce⟩
            exact List.any_eq_true.mpr
              ⟨e, List.mem_append_left _ (List.mem_append_left _ he), hce⟩
          · refine List.any_eq_true.mpr
              ⟨⟨.task_complete, execId, some id, .taskCompleted task.description,
                (executeTaskWithRetry (cap task st.results) task 2).output⟩,
                List.mem_append_right _ (List.mem_singleton_self _), ?_⟩
            simp [isCompleteEvt]
        · intro t' ht' hbid'
          exact insertSet_mono (hdep t' (List.mem_cons_of_mem _ ht') hbid')
      · refine ih _ ⟨?_, ?_⟩ ?_
        · exact hord _ (by exact rfl)
        · intro id hid
          rcases List.any_eq_true.mp (h.2 id hid) with ⟨e, he, hce⟩
          exact List.any_eq_true.mpr
            ⟨e, List.mem_append_left _ (List.mem_append_left _ he), hce⟩
        · intro t' ht' hbid'
          exact hdep t' (List.mem_cons_of_mem _ ht') hbid'

lemma engineLoop_startAfterDep (cap : Capability) (execId : Nat)
    (tasks : List PlanTask) {A : String} {B : PlanTask}
    (hnd : (tasks.map PlanTask.id).Nodup) (hB : B ∈ tasks)
    (hA : A ∈ B.dependencies) (fuel : Nat) (st : EngState)
    (h : StartAfterDep A B.id st) :
    StartAfterDep A B.id (engineLoop cap execId tasks fuel st) := by
  refine engineLoop_inv cap execId tasks (StartAfterDep A B.id) ?_ ?_ ?_ fuel st h
  · exact fun s hs => hs
  · exact fun s hs => propagateBlocked_startAfterDep A B.id execId _ s hs
  · intro s hs
    refine runReady_startAfterDep A B.id cap execId tasks _ s hs ?_
    intro tid htid hbid
    subst hbid
    exact getReadyTasks_deps_completed hnd hB htid A hA

/-- C7 (confirmed): in the event stream emitted by a run of a plan with
distinct task ids, if task `B` lists `A` in its dependencies then `B`'s
`task_start` event never precedes a terminal event (`task_complete` or
`task_error`) of `A`: every prefix of the emitted stream that contains a
`task_start` of `B` already contains a terminal event of `A`. -/
theorem c7_dependency_ordering (cap : Capability)
    (analyze : List (String × String) → String) (execId : Nat)
    (plan : ExecutionPlan) (A : String) (B : PlanTask)
    (hnd : (plan.tasks.map PlanTask.id).Nodup) (hB : B ∈ plan.tasks)
    (hA : A ∈ B.dependencies) :
    eventOrdered (isTerminalEvt A) (isStartEvt B.id)
      (executePlanWithStreaming cap analyze execId plan).events := by
  have hloop : StartAfterDep A B.id (engineLoop cap execId plan.tasks
      (plan.tasks.length * 2)
      ⟨[], [], [],
        [⟨.plan, execId, none,
          .planStart plan.totalSteps plan.estimatedDuration, none⟩], [], 0⟩) := by
    refine engineLoop_startAfterDep cap execId plan.tasks hnd hB hA _ _ ⟨?_, ?_⟩
    · refine eventOrdered_of_no_q ?_
      rw [List.any_eq_false]
      intro e he hc
      rcases List.mem_singleton.mp he with rfl
      exact Bool.noConfusion hc
    · intro id hid
      exact absurd hid (List.not_mem_nil id)
  simp only [executePlanWithStreaming]
  refine eventOrdered_append_no_q hloop.1 ?_
  rw [List.any_eq_false]
  intro e he hc
  rcases List.mem_singleton.mp he with rfl
  exact Bool.noConfusion hc

/-- Witness for `c7_dependency_ordering`: in `planRequiredDep`, `B` depends
on `A` and the theorem applies to the run with the always-succeeding
capability. -/
theorem c7_dependency_ordering_witness :
    (planRequiredDep.tasks.map PlanTask.id).Nodup
    ∧ taskBReq ∈ planRequiredDep.tasks
    ∧ "A" ∈ taskBReq.dependencies
    ∧ eventOrdered (isTerminalEvt "A") (isStartEvt taskBReq.id)
        (executePlanWithStreaming capAllOk analyzeStub 7 planRequiredDep).events :=
  ⟨by decide, by decide, by decide,
    c7_dependency_ordering capAllOk analyzeStub 7 planRequiredDep "A" taskBReq
      (by decide) (by decide) (by decide)⟩
